import Mathlib

/-!
Verification of the yo-typing game server core
(`base/websocket/game_logic/controllers.py` and friends).

The Python classes are shallowly embedded: mutable objects become Lean
structures, methods become pure functions returning the updated state,
Python exceptions become `Option`/`Except` results, Python `dict`s become
insertion-ordered association lists, and Python floats become exact
rationals (reals in the tick-decay section, where a real power appears).
-/

namespace YoTyping

/-! ## Word list provider (`WordListProvider`)

`helpers.get_words(100)` draws a fresh random page of words; we model the
page source as a function `pages : Nat → List String` giving the page
fetched by the i-th fetch (the source always returns exactly `n = 100`
words: `int(100*0.1) = 10` yo words plus `90` regular ones).
The Python iterator `_new_word_iterator` is modelled by the list of its
remaining elements. -/

structure WPState where
  words : List String
  newIter : List String
  pageIdx : Nat
  deriving Repr, DecidableEq

/-- `WordListProvider.__init__`: `_extend_word_list(init=True)` appends the
first page to `_words` but leaves the exhausted iterator in place. -/
def WPState.initProvider (pages : Nat → List String) : WPState :=
  { words := pages 0, newIter := [], pageIdx := 1 }

/-- `WordListProvider._extend_word_list` with `init=False`. -/
def WPState.extend_word_list (pages : Nat → List String) (s : WPState) : WPState :=
  { words := s.words ++ pages s.pageIdx
    newIter := pages s.pageIdx
    pageIdx := s.pageIdx + 1 }

/-- `WordListProvider.get_new_word`: take the next element of the iterator,
extending the word list by a fresh page when the iterator is exhausted.
`none` models the `StopIteration` that Python would raise if a freshly
fetched page were empty. -/
def WPState.get_new_word (pages : Nat → List String) (s : WPState) :
    Option (String × WPState) :=
  match s.newIter with
  | w :: rest => some (w, { s with newIter := rest })
  | [] =>
    let s' := s.extend_word_list pages
    match s'.newIter with
    | w :: rest => some (w, { s' with newIter := rest })
    | [] => none

/-- The provider state after the k-th successful call to `get_new_word`,
together with the word that call returned (`none` when some call failed). -/
def WPState.run_get_new_word (pages : Nat → List String) (s : WPState) :
    Nat → Option (String × WPState)
  | 0 => none
  | 1 => s.get_new_word pages
  | (k + 2) =>
    match s.run_get_new_word pages (k + 1) with
    | some (_, s') => s'.get_new_word pages
    | none => none

/-- Concatenation of the first `n` fetched pages. -/
def pagesConcat (pages : Nat → List String) : Nat → List String
  | 0 => []
  | n + 1 => pagesConcat pages n ++ pages n

theorem pagesConcat_length (pages : Nat → List String)
    (hlen : ∀ i, (pages i).length = 100) :
    ∀ n, (pagesConcat pages n).length = 100 * n := by
  intro n
  induction n with
  | zero => simp [pagesConcat]
  | succ n ih =>
    simp only [pagesConcat, List.length_append, ih, hlen n]
    ring

theorem pagesConcat_prefix (pages : Nat → List String) {m n : Nat} (h : m ≤ n) :
    List.IsPrefix (pagesConcat pages m) (pagesConcat pages n) := by
  induction n with
  | zero =>
    have : m = 0 := by omega
    subst this
    exact List.prefix_refl _
  | succ n ih =>
    rcases Nat.lt_or_ge m (n + 1) with h1 | h2
    · exact (ih (by omega)).trans (List.prefix_append _ _)
    · have : m = n + 1 := by omega
      subst this
      exact List.prefix_refl _

theorem head?_drop_eq (l : List String) (n : Nat) : (l.drop n).head? = l[n]? := by
  induction l generalizing n with
  | nil => simp
  | cons a t ih =>
    cases n with
    | zero => simp
    | succ n => simp only [List.drop_succ_cons, List.getElem?_cons_succ]; exact ih n

theorem WPState.get_new_word_cons {pages : Nat → List String} {s : WPState}
    {w : String} {rest : List String} (h : s.newIter = w :: rest) :
    s.get_new_word pages = some (w, { s with newIter := rest }) := by
  unfold WPState.get_new_word
  rw [h]

theorem WPState.get_new_word_nil {pages : Nat → List String} {s : WPState}
    (h : s.newIter = []) {w : String} {rest : List String}
    (h2 : pages s.pageIdx = w :: rest) :
    s.get_new_word pages =
      some (w, ⟨s.words ++ pages s.pageIdx, rest, s.pageIdx + 1⟩) := by
  unfold WPState.get_new_word WPState.extend_word_list
  rw [h]
  simp only [h2]

theorem WPState.run_get_new_word_succ (pages : Nat → List String) (s : WPState)
    (k : Nat) (hk : 1 ≤ k) {w : String} {s' : WPState}
    (h : s.run_get_new_word pages k = some (w, s')) :
    s.run_get_new_word pages (k + 1) = s'.get_new_word pages := by
  cases k with
  | zero => omega
  | succ k =>
    show (match s.run_get_new_word pages (k + 1) with
      | some (_, t) => t.get_new_word pages
      | none => none) = s'.get_new_word pages
    rw [h]

/-- State characterization after the k-th `get_new_word` call on a freshly
constructed provider (pages all of length 100): writing `k - 1 = 100*q + r`,
the provider has fetched pages `0 … q+1`, the iterator holds the tail of
page `q+1` after position `r`, and the call returned the element of page
`q+1` at position `r`. -/
theorem WPState.run_char (pages : Nat → List String)
    (hlen : ∀ i, (pages i).length = 100) :
    ∀ k, 1 ≤ k →
    ∃ w s, WPState.run_get_new_word pages (WPState.initProvider pages) k = some (w, s) ∧
      s.pageIdx = (k - 1) / 100 + 2 ∧
      s.words = pagesConcat pages ((k - 1) / 100 + 2) ∧
      s.newIter = (pages ((k - 1) / 100 + 1)).drop ((k - 1) % 100 + 1) ∧
      (pages ((k - 1) / 100 + 1))[(k - 1) % 100]? = some w := by
  intro k
  induction k with
  | zero => omega
  | succ k ih =>
    intro _
    rcases Nat.eq_zero_or_pos k with hk0 | hkpos
    · -- first call: the exhausted iterator forces a fetch of page 1
      subst hk0
      have h1 : (pages 1).length = 100 := hlen 1
      cases hp : pages 1 with
      | nil => rw [hp] at h1; simp at h1
      | cons w rest =>
        refine ⟨w, ⟨pages 0 ++ pages 1, rest, 2⟩, ?_, by norm_num, ?_, ?_, ?_⟩
        · show (WPState.initProvider pages).get_new_word pages = _
          exact WPState.get_new_word_nil rfl hp
        · simp [pagesConcat]
        · simp [hp]
        · simp [hp]
    · obtain ⟨w, s, hrun, hidx, hwords, hiter, hget⟩ := ih hkpos
      have hrunstep := WPState.run_get_new_word_succ pages _ k hkpos hrun
      rcases Nat.lt_or_ge ((k - 1) % 100) 99 with hr99 | hr99
      · -- still inside page q+1
        have hlen1 : (pages ((k - 1) / 100 + 1)).length = 100 := hlen ((k - 1) / 100 + 1)
        have hne : (pages ((k - 1) / 100 + 1)).drop ((k - 1) % 100 + 1) ≠ [] := by
          intro hnil
          have := List.drop_eq_nil_iff.mp hnil
          omega
        cases hD : (pages ((k - 1) / 100 + 1)).drop ((k - 1) % 100 + 1) with
        | nil => exact absurd hD hne
        | cons w' rest' =>
          have hcons : s.newIter = w' :: rest' := by rw [hiter, hD]
          have h100 : (k + 1 - 1) / 100 = (k - 1) / 100 := by omega
          have hmod : (k + 1 - 1) % 100 = (k - 1) % 100 + 1 := by omega
          refine ⟨w', { s with newIter := rest' }, ?_, ?_, ?_, ?_, ?_⟩
          · rw [hrunstep]
            exact WPState.get_new_word_cons hcons
          · rw [h100]
            exact hidx
          · rw [h100]
            exact hwords
          · rw [h100, hmod]
            show rest' = (pages ((k - 1) / 100 + 1)).drop ((k - 1) % 100 + 1 + 1)
            have htl : ((pages ((k - 1) / 100 + 1)).drop ((k - 1) % 100 + 1)).tail
                = (pages ((k - 1) / 100 + 1)).drop ((k - 1) % 100 + 1 + 1) := by
              rw [List.tail_drop]
            rw [hD] at htl
            simpa using htl
          · rw [h100, hmod, ← head?_drop_eq, hD]
            rfl
      · -- page q+1 is exhausted (r = 99): a fresh page q+2 is fetched
        have hnil : s.newIter = [] := by
          rw [hiter]
          refine List.drop_eq_nil_iff.mpr ?_
          rw [hlen ((k - 1) / 100 + 1)]
          omega
        have h2 : (pages ((k - 1) / 100 + 2)).length = 100 := hlen ((k - 1) / 100 + 2)
        cases hp : pages ((k - 1) / 100 + 2) with
        | nil => rw [hp] at h2; simp at h2
        | cons w' rest' =>
          have hp' : pages s.pageIdx = w' :: rest' := by rw [hidx, hp]
          have hrlt : (k - 1) % 100 < 100 := Nat.mod_lt _ (by omega)
          have h100 : (k + 1 - 1) / 100 = (k - 1) / 100 + 1 := by omega
          have hmod : (k + 1 - 1) % 100 = 0 := by omega
          refine ⟨w', ⟨s.words ++ pages s.pageIdx, rest', s.pageIdx + 1⟩, ?_, ?_, ?_, ?_, ?_⟩
          · rw [hrunstep]
            exact WPState.get_new_word_nil hnil hp'
          · show s.pageIdx + 1 = (k + 1 - 1) / 100 + 2
            rw [h100, hidx]
          · show s.words ++ pages s.pageIdx = pagesConcat pages ((k + 1 - 1) / 100 + 2)
            rw [h100, hwords, hidx]
            rfl
          · show rest' = (pages ((k + 1 - 1) / 100 + 1)).drop ((k + 1 - 1) % 100 + 1)
            rw [h100, hmod, hp]
            rfl
          · rw [h100, hmod, hp]
            simp

/-- **C10**: for the provider as constructed (one 100-word page, exhausted
new-word cursor), the k-th `get_new_word` call (k ≥ 1) returns the element
of the accumulated word list at index `99 + k` (so never a word position of
the initial page), the list length after that call is
`100 * (1 + ceil(k/100))` (written `100 * (1 + (k + 99) / 100)`), and the
word list only ever grows (every earlier list, the initial one included, is
a prefix of the current one). -/
theorem word_provider_get_new_word_correct (pages : Nat → List String)
    (hlen : ∀ i, (pages i).length = 100) (k : Nat) (hk : 1 ≤ k) :
    ∃ w s, WPState.run_get_new_word pages (WPState.initProvider pages) k = some (w, s) ∧
      s.words[99 + k]? = some w ∧
      s.words.length = 100 * (1 + (k + 99) / 100) ∧
      List.IsPrefix (WPState.initProvider pages).words s.words ∧
      (∀ j w' t, j ≤ k →
        WPState.run_get_new_word pages (WPState.initProvider pages) j = some (w', t) →
        List.IsPrefix t.words s.words) := by
  obtain ⟨w, s, hrun, hidx, hwords, hiter, hget⟩ := WPState.run_char pages hlen k hk
  have hlenc : (pagesConcat pages ((k - 1) / 100 + 1)).length = 100 * ((k - 1) / 100 + 1) :=
    pagesConcat_length pages hlen _
  refine ⟨w, s, hrun, ?_, ?_, ?_, ?_⟩
  · rw [hwords]
    have hsplit : pagesConcat pages ((k - 1) / 100 + 2)
        = pagesConcat pages ((k - 1) / 100 + 1) ++ pages ((k - 1) / 100 + 1) := rfl
    rw [hsplit]
    rw [List.getElem?_append_right (by rw [hlenc]; omega)]
    rw [hlenc]
    have harith : 99 + k - 100 * ((k - 1) / 100 + 1) = (k - 1) % 100 := by omega
    rw [harith]
    exact hget
  · rw [hwords, pagesConcat_length pages hlen]
    omega
  · have hinit : (WPState.initProvider pages).words = pagesConcat pages 1 := by
      simp [WPState.initProvider, pagesConcat]
    rw [hinit, hwords]
    exact pagesConcat_prefix pages (by omega)
  · intro j w' t hj hrunj
    rcases Nat.eq_zero_or_pos j with rfl | hjpos
    · simp [WPState.run_get_new_word] at hrunj
    · obtain ⟨wj, sj, hrunj2, -, hwordsj, -, -⟩ := WPState.run_char pages hlen j hjpos
      rw [hrunj] at hrunj2
      simp only [Option.some.injEq, Prod.mk.injEq] at hrunj2
      obtain ⟨-, rfl⟩ := hrunj2
      rw [hwordsj, hwords]
      exact pagesConcat_prefix pages (by omega)

/-- Witness for C10: a concrete page source and the first call. -/
theorem word_provider_get_new_word_witness :
    ∃ w s, WPState.run_get_new_word (fun _ => List.replicate 100 "yo")
        (WPState.initProvider (fun _ => List.replicate 100 "yo")) 1 = some (w, s) ∧
      s.words[99 + 1]? = some w ∧
      s.words.length = 100 * (1 + (1 + 99) / 100) ∧
      List.IsPrefix (WPState.initProvider (fun _ => List.replicate 100 "yo")).words s.words ∧
      (∀ j w' t, j ≤ 1 →
        WPState.run_get_new_word (fun _ => List.replicate 100 "yo")
          (WPState.initProvider (fun _ => List.replicate 100 "yo")) j = some (w', t) →
        List.IsPrefix t.words s.words) :=
  word_provider_get_new_word_correct (fun _ => List.replicate 100 "yo")
    (fun _ => by simp) 1 (by omega)

/-! ## Controller registry (`ControllerStorage`)

`_sessions` is a dict from session id to `{'use_count': …, 'controller': …}`;
we model the controller object by an opaque `Nat` token produced by the
factory `controller_cls(session_id)`, which may fail (the constructor may
raise `GameOverError` / `NotFound`). -/

structure StorageEntry where
  use_count : Int
  controller : Nat
  deriving Repr, DecidableEq

/-- The registry: a map from session id to entry (`_sessions`, a Python
dict; keys are unique so a plain function map is faithful). -/
structure Storage where
  sessions : String → Option StorageEntry

def Storage.empty : Storage := ⟨fun _ => none⟩

def Storage.lookup (st : Storage) (sid : String) : Option StorageEntry :=
  st.sessions sid

def Storage.contains (st : Storage) (sid : String) : Bool :=
  (st.lookup sid).isSome

def Storage.insert (st : Storage) (sid : String) (e : StorageEntry) : Storage :=
  ⟨fun s => if s = sid then some e else st.sessions s⟩

def Storage.erase (st : Storage) (sid : String) : Storage :=
  ⟨fun s => if s = sid then none else st.sessions s⟩

/-- `self._sessions[session_id]['use_count'] += d` (no-op on a missing key,
which never happens at the call sites). -/
def Storage.bump (st : Storage) (sid : String) (d : Int) : Storage :=
  match st.lookup sid with
  | some e => st.insert sid { e with use_count := e.use_count + d }
  | none => st

/-- `ControllerStorage.get_game_controller`.  When no entry exists the
factory runs while the fresh entry is being built, so a factory failure
(`none`) propagates before anything is inserted; otherwise the fresh entry
is stored with `use_count = 0`.  Either way the counter is then
incremented and the stored controller returned. -/
def Storage.finishGet (st1 : Storage) (sid : String) : Option (Nat × Storage) :=
  let st2 := st1.bump sid 1
  match st2.lookup sid with
  | some e => some (e.controller, st2)
  | none => none

def Storage.get_game_controller (st : Storage) (factory : Option Nat)
    (sid : String) : Option (Nat × Storage) :=
  match st.lookup sid with
  | some _ => st.finishGet sid
  | none =>
    match factory with
    | none => none
    | some c => (st.insert sid ⟨0, c⟩).finishGet sid

/-- `ControllerStorage.remove_game_controller`: decrement and pop the
entry when the counter reaches zero (or below). -/
def Storage.remove_game_controller (st : Storage) (sid : String) : Storage :=
  match st.lookup sid with
  | none => st
  | some e =>
    if e.use_count - 1 ≤ 0 then
      (st.insert sid { e with use_count := e.use_count - 1 }).erase sid
    else
      st.insert sid { e with use_count := e.use_count - 1 }

/-- One registry operation: a `get_game_controller` call (with the outcome
of the factory, should it run) or a `remove_game_controller` call. -/
inductive StorageOp
  | get (factory : Option Nat) (sid : String)
  | release (sid : String)
  deriving Repr, DecidableEq

def Storage.applyOp (st : Storage) : StorageOp → Storage
  | .get factory sid =>
    match st.get_game_controller factory sid with
    | some (_, st') => st'
    | none => st
  | .release sid => st.remove_game_controller sid

def Storage.runOps (st : Storage) : List StorageOp → Storage
  | [] => st
  | op :: ops => (st.applyOp op).runOps ops

/-- The use count the registry records for `sid` (0 when absent). -/
def Storage.useCount (st : Storage) (sid : String) : Int :=
  match st.lookup sid with
  | some e => e.use_count
  | none => 0

/-- Registry invariant: every stored entry has a positive use count. -/
def Storage.Inv (st : Storage) : Prop :=
  ∀ sid e, st.lookup sid = some e → 1 ≤ e.use_count

theorem Storage.empty_inv : Storage.empty.Inv := by
  intro sid e h
  simp [Storage.empty, Storage.lookup] at h

theorem Storage.lookup_insert_self (st : Storage) (sid : String) (e : StorageEntry) :
    (st.insert sid e).lookup sid = some e := by
  simp [Storage.lookup, Storage.insert]

theorem Storage.lookup_insert_ne (st : Storage) {sid sid' : String} (e : StorageEntry)
    (h : sid' ≠ sid) : (st.insert sid e).lookup sid' = st.lookup sid' := by
  simp [Storage.lookup, Storage.insert, h]

theorem Storage.lookup_erase_self (st : Storage) (sid : String) :
    (st.erase sid).lookup sid = none := by
  simp [Storage.lookup, Storage.erase]

theorem Storage.lookup_erase_ne (st : Storage) {sid sid' : String}
    (h : sid' ≠ sid) : (st.erase sid).lookup sid' = st.lookup sid' := by
  simp [Storage.lookup, Storage.erase, h]

theorem Storage.finishGet_eq {st1 : Storage} {sid : String} {e : StorageEntry}
    (he : st1.lookup sid = some e) :
    st1.finishGet sid =
      some (e.controller, st1.insert sid ⟨e.use_count + 1, e.controller⟩) := by
  simp only [Storage.finishGet, Storage.bump, he, Storage.lookup_insert_self]

theorem Storage.get_game_controller_inv {st : Storage} (h : st.Inv)
    (factory : Option Nat) (sid : String) {c : Nat} {st' : Storage}
    (hres : st.get_game_controller factory sid = some (c, st')) : st'.Inv := by
  unfold Storage.get_game_controller at hres
  cases he : st.lookup sid with
  | some e =>
    simp only [he, Storage.finishGet_eq he, Option.some.injEq, Prod.mk.injEq] at hres
    obtain ⟨-, rfl⟩ := hres
    intro sid' e' h'
    by_cases hx : sid' = sid
    · rw [hx, Storage.lookup_insert_self] at h'
      cases h'
      have := h sid e he
      exact (show (1:Int) ≤ e.use_count + 1 by omega)
    · rw [Storage.lookup_insert_ne _ _ hx] at h'
      exact h sid' e' h'
  | none =>
    simp only [he] at hres
    cases factory with
    | none => exact absurd hres (by simp)
    | some cc =>
      have he2 : (st.insert sid ⟨0, cc⟩).lookup sid = some ⟨0, cc⟩ :=
        Storage.lookup_insert_self st sid ⟨0, cc⟩
      simp only [Storage.finishGet_eq he2, Option.some.injEq, Prod.mk.injEq] at hres
      obtain ⟨-, rfl⟩ := hres
      intro sid' e' h'
      by_cases hx : sid' = sid
      · rw [hx, Storage.lookup_insert_self] at h'
        cases h'
        exact (show (1:Int) ≤ 0 + 1 by omega)
      · rw [Storage.lookup_insert_ne _ _ hx, Storage.lookup_insert_ne _ _ hx] at h'
        exact h sid' e' h'

theorem Storage.remove_game_controller_inv {st : Storage} (h : st.Inv)
    (sid : String) : (st.remove_game_controller sid).Inv := by
  unfold Storage.remove_game_controller
  cases he : st.lookup sid with
  | none => exact h
  | some e =>
    simp only [he]
    by_cases hc : e.use_count - 1 ≤ 0
    · rw [if_pos hc]
      intro sid' e' h'
      by_cases hx : sid' = sid
      · rw [hx, Storage.lookup_erase_self] at h'
        exact Option.noConfusion h'
      · rw [Storage.lookup_erase_ne _ hx, Storage.lookup_insert_ne _ _ hx] at h'
        exact h sid' e' h'
    · rw [if_neg hc]
      intro sid' e' h'
      by_cases hx : sid' = sid
      · rw [hx, Storage.lookup_insert_self] at h'
        cases h'
        exact (show (1:Int) ≤ e.use_count - 1 by omega)
      · rw [Storage.lookup_insert_ne _ _ hx] at h'
        exact h sid' e' h'

theorem Storage.applyOp_keeps_inv {st : Storage} (h : st.Inv) (op : StorageOp) :
    (st.applyOp op).Inv := by
  cases op with
  | get factory sid =>
    simp only [Storage.applyOp]
    cases hres : st.get_game_controller factory sid with
    | none => exact h
    | some p =>
      obtain ⟨c, st'⟩ := p
      exact Storage.get_game_controller_inv h factory sid hres
  | release sid => exact Storage.remove_game_controller_inv h sid

theorem Storage.runOps_keeps_inv : ∀ (ops : List StorageOp) (st : Storage), st.Inv →
    (st.runOps ops).Inv := by
  intro ops
  induction ops with
  | nil => intro st h; exact h
  | cons op rest ih =>
    intro st h
    exact ih (st.applyOp op) (Storage.applyOp_keeps_inv h op)

/-- **C8**: for every sequence of registry operations starting from the
empty registry: (1) the registry contains an entry for a session id iff
that id's use count is positive; (2) when the id is absent and the
controller factory fails, `get_game_controller` propagates the failure,
so no entry is left behind; (3) `remove_game_controller` deletes the
entry exactly when the use count drops to zero (i.e. was 1). -/
theorem registry_refcount_invariant (ops : List StorageOp) :
    (∀ sid, (Storage.empty.runOps ops).contains sid = true ↔
      0 < (Storage.empty.runOps ops).useCount sid) ∧
    (∀ sid, (Storage.empty.runOps ops).contains sid = false →
      (Storage.empty.runOps ops).get_game_controller none sid = none) ∧
    (∀ sid e, (Storage.empty.runOps ops).lookup sid = some e →
      (((Storage.empty.runOps ops).remove_game_controller sid).contains sid = false ↔
        e.use_count = 1)) := by
  have hinv : (Storage.empty.runOps ops).Inv :=
    Storage.runOps_keeps_inv ops Storage.empty Storage.empty_inv
  set st := Storage.empty.runOps ops with hst
  refine ⟨?_, ?_, ?_⟩
  · intro sid
    unfold Storage.contains Storage.useCount
    cases he : st.lookup sid with
    | none => simp
    | some e =>
      have := hinv sid e he
      simp only [Option.isSome_some]
      constructor
      · intro _; omega
      · intro _; trivial
  · intro sid hc
    unfold Storage.contains at hc
    cases hl : st.lookup sid with
    | some e => rw [hl] at hc; simp at hc
    | none =>
      unfold Storage.get_game_controller
      simp only [hl]
  · intro sid e he
    have hpos := hinv sid e he
    unfold Storage.remove_game_controller
    simp only [he]
    by_cases hc : e.use_count - 1 ≤ 0
    · rw [if_pos hc]
      unfold Storage.contains
      rw [Storage.lookup_erase_self]
      simp only [Option.isSome_none]
      constructor
      · intro _; omega
      · intro _; trivial
    · rw [if_neg hc]
      unfold Storage.contains
      rw [Storage.lookup_insert_self]
      simp only [Option.isSome_some]
      constructor
      · intro hfalse; exact absurd hfalse (by simp)
      · intro h1; exact absurd (show e.use_count - 1 ≤ 0 by omega) hc

/-! ## Player controller (`PlayerController`, `LocalPlayer`, `LocalTeam`)

Python floats carried by players (speed, time-left, …) are modelled as
exact rationals; the operations performed on them (add, subtract, divide,
`min`, comparisons) are the rational ones.  `_players` is an
insertion-ordered dict from player pk to the local player object,
modelled as an association list.  `secrets.token_urlsafe(3)` draws a
random tag; we model the randomness by an explicit list of tags consumed
by the deduplication loop (`none` models the loop failing to terminate,
which cannot happen with an inexhaustible random source). -/

def GameModes.labels : List String := ["single", "ironwall", "tugofwar", "endless"]

structure GameOptions where
  game_duration : ℚ := 60
  win_condition : String := "PointsCompetition"
  team_mode : Bool := false
  speed_up_percent : ℚ := 0
  points_difference : Int := 0
  time_per_word : ℚ := 0
  strict_mode : Bool := false
  start_delay : ℚ := 0
  deriving Repr, DecidableEq

def WIN_CONDITION_BEST_SCORE : String := "PointsCompetition"
def WIN_CONDITION_BEST_TIME : String := "Race"
def WIN_CONDITION_SURVIVED : String := "Survival"

/-- The durable `Player` record handed to the controller. -/
structure PlayerRec where
  pk : Nat
  displayed_name : String
  deriving Repr, DecidableEq

structure LocalPlayer where
  id : Nat
  displayed_name : String
  old_displayed_name : String
  score : Int := 0
  speed : ℚ := 0
  time_left : Option ℚ := none
  is_ready : Bool := false
  is_out : Bool := false
  team_name : Option String := none
  correct_words : Nat := 0
  incorrect_words : Nat := 0
  mistake_ratio : ℚ := 0
  is_winner : Option Bool := none
  total_word_length : Nat := 0
  voted_for : Option String := none
  next_words : List String := []
  deriving Repr, DecidableEq

/-- `PlayerController._init_local_player` / `LocalPlayer.__post_init__`.
`old_displayed_name` starts as the join name; `_add_to_unique_displayed_names`
assigns the same value before the player is inserted. -/
def init_local_player (p : PlayerRec) (words : List String) : LocalPlayer :=
  { id := p.pk
    displayed_name := p.displayed_name
    old_displayed_name := p.displayed_name
    next_words := words }

/-- `LocalTeam`: the member dict keyed by player id (scores and speeds are
derived properties, so only membership and the own time-left are state). -/
structure TeamRec where
  member_ids : List Nat := []
  time_left : Option ℚ := none
  deriving Repr, DecidableEq

def TeamRec.addMember (t : TeamRec) (pk : Nat) : TeamRec :=
  { t with member_ids := t.member_ids ++ [pk] }

def TeamRec.removeMember (t : TeamRec) (pk : Nat) : TeamRec :=
  { t with member_ids := t.member_ids.erase pk }

structure PCState where
  players : List (Nat × LocalPlayer) := []
  ready_count : Int := 0
  voted_count : Int := 0
  unique_displayed_names : List String := []
  team_red : TeamRec := {}
  team_blue : TeamRec := {}
  words : List String := []
  deriving Repr, DecidableEq

/-- `PlayerController.__init__` (fresh controller over a word list). -/
def PCState.init (words : List String) : PCState := { words := words }

def lookupPlayer (ps : List (Nat × LocalPlayer)) (pk : Nat) : Option LocalPlayer :=
  (ps.find? (fun q => q.1 == pk)).map Prod.snd

def updatePlayer (ps : List (Nat × LocalPlayer)) (pk : Nat)
    (f : LocalPlayer → LocalPlayer) : List (Nat × LocalPlayer) :=
  ps.map (fun q => if q.1 == pk then (q.1, f q.2) else q)

def removePlayer (ps : List (Nat × LocalPlayer)) (pk : Nat) : List (Nat × LocalPlayer) :=
  ps.filter (fun q => q.1 != pk)

def PCState.player_count (st : PCState) : Nat := st.players.length

/-- `PlayerController._add_to_unique_displayed_names`: keep the base name
when free, otherwise try `base#tag` for successive random tags until the
candidate is unused. -/
def pick_unique_name (used : List String) (base : String) (tags : List String) :
    Option String :=
  if ¬ used.contains base then some base
  else (tags.find? (fun t => ¬ used.contains (base ++ "#" ++ t))).map
    (fun t => base ++ "#" ++ t)

/-- `PlayerController.add_player`.  Returns `none` for the
`PlayerJoinRefusedError` (cap reached) and for an exhausted tag supply;
re-adding a present player returns it unchanged (idempotent). -/
def PCState.add_player (opts : GameOptions) (players_max : Nat) (st : PCState)
    (p : PlayerRec) (tags : List String) : Option (LocalPlayer × PCState) :=
  match lookupPlayer st.players p.pk with
  | some lp => some (lp, st)
  | none =>
    if players_max ≠ 0 ∧ players_max ≤ st.player_count then none
    else
      let lp0 := init_local_player p st.words
      match pick_unique_name st.unique_displayed_names lp0.displayed_name tags with
      | none => none
      | some nm =>
        let lp1 := { lp0 with displayed_name := nm
                              old_displayed_name := lp0.displayed_name }
        if opts.team_mode then
          if st.team_red.member_ids.length ≤ st.team_blue.member_ids.length then
            let lp2 := { lp1 with team_name := some "red" }
            some (lp2, { st with
              players := st.players ++ [(p.pk, lp2)]
              unique_displayed_names := st.unique_displayed_names ++ [nm]
              team_red := st.team_red.addMember p.pk })
          else
            let lp2 := { lp1 with team_name := some "blue" }
            some (lp2, { st with
              players := st.players ++ [(p.pk, lp2)]
              unique_displayed_names := st.unique_displayed_names ++ [nm]
              team_blue := st.team_blue.addMember p.pk })
        else
          some (lp1, { st with
            players := st.players ++ [(p.pk, lp1)]
            unique_displayed_names := st.unique_displayed_names ++ [nm] })

/-- `PlayerController.remove_player`.  `none` is the `KeyError` on a
missing player (raised before any mutation) and the unreachable missing
team name in team mode.  The returned player carries the restored
(original) displayed name, as mutated by
`_remove_from_unique_displayed_names`. -/
def PCState.remove_player (opts : GameOptions) (st : PCState) (p : PlayerRec) :
    Option (LocalPlayer × PCState) :=
  match lookupPlayer st.players p.pk with
  | none => none
  | some lp =>
    let st1 := { st with
      players := removePlayer st.players p.pk
      ready_count := if lp.is_ready then st.ready_count - 1 else st.ready_count
      voted_count := if lp.voted_for.isSome then st.voted_count - 1 else st.voted_count
      unique_displayed_names := st.unique_displayed_names.erase lp.displayed_name }
    let lp' := { lp with displayed_name := lp.old_displayed_name }
    if opts.team_mode then
      match lp.team_name with
      | some "red" => some (lp', { st1 with team_red := st1.team_red.removeMember p.pk })
      | some "blue" => some (lp', { st1 with team_blue := st1.team_blue.removeMember p.pk })
      | _ => none
    else some (lp', st1)

/-- `PlayerController.set_ready_state`: the counter moves only on actual
transitions.  `none` is the `KeyError` on a missing player. -/
def PCState.set_ready_state (st : PCState) (p : PlayerRec) (state : Bool) :
    Option PCState :=
  match lookupPlayer st.players p.pk with
  | none => none
  | some lp =>
    if lp.is_ready ≠ state then
      some { st with
        ready_count := st.ready_count + (if state then 1 else -1)
        players := updatePlayer st.players p.pk (fun q => { q with is_ready := state }) }
    else some st

/-- `PlayerController.set_player_vote`: `none` is the
`InvalidModeChoiceError` on an unknown label or the `KeyError` on a
missing player; the counter moves only on a first vote, and the choice is
always overwritten. -/
def PCState.set_player_vote (st : PCState) (p : PlayerRec) (vote : String) :
    Option PCState :=
  if ¬ GameModes.labels.contains vote then none
  else
    match lookupPlayer st.players p.pk with
    | none => none
    | some lp =>
      let st1 := if lp.voted_for.isNone then
          { st with voted_count := st.voted_count + 1 } else st
      some { st1 with
        players := updatePlayer st1.players p.pk (fun q => { q with voted_for := some vote }) }

/-- `PlayerController.set_player_team`: `none` covers the
`InvalidOperationError` without team mode and the `KeyError` on an
unknown team, a missing player or a missing current team. -/
def PCState.set_player_team (opts : GameOptions) (st : PCState) (p : PlayerRec)
    (team : String) : Option PCState :=
  if ¬ opts.team_mode then none
  else if ¬ (team = "red" ∨ team = "blue") then none
  else
    match lookupPlayer st.players p.pk with
    | none => none
    | some lp =>
      match lp.team_name with
      | none => none
      | some cur =>
        if ¬ (cur = "red" ∨ cur = "blue") then none
        else if (if team = "red" then st.team_red else st.team_blue).member_ids.contains p.pk
        then some st
        else
          some { st with
            players := updatePlayer st.players p.pk
              (fun q => { q with team_name := some team })
            team_red :=
              if team = "red" then
                (if cur = "red" then st.team_red.removeMember p.pk else st.team_red).addMember p.pk
              else
                (if cur = "red" then st.team_red.removeMember p.pk else st.team_red)
            team_blue :=
              if team = "blue" then
                (if cur = "blue" then st.team_blue.removeMember p.pk else st.team_blue).addMember p.pk
              else
                (if cur = "blue" then st.team_blue.removeMember p.pk else st.team_blue) }

/-- The number of present players whose ready flag is set. -/
def PCState.readySpec (st : PCState) : Int :=
  ((st.players.filter (fun q => q.2.is_ready)).length : Int)

/-- The number of present players whose voted-for field is non-null. -/
def PCState.votedSpec (st : PCState) : Int :=
  ((st.players.filter (fun q => q.2.voted_for.isSome)).length : Int)

/-- One public player-controller operation. -/
inductive PCOp
  | add (p : PlayerRec) (tags : List String)
  | remove (p : PlayerRec)
  | setReady (p : PlayerRec) (state : Bool)
  | setVote (p : PlayerRec) (vote : String)
  | setTeam (p : PlayerRec) (team : String)
  deriving Repr, DecidableEq

/-- Apply one operation; a raising operation leaves the state unchanged
(every raise in the source happens before any mutation). -/
def PCState.applyOp (opts : GameOptions) (players_max : Nat) (st : PCState) :
    PCOp → PCState
  | .add p tags =>
    match st.add_player opts players_max p tags with
    | some (_, st') => st'
    | none => st
  | .remove p =>
    match st.remove_player opts p with
    | some (_, st') => st'
    | none => st
  | .setReady p b => (st.set_ready_state p b).getD st
  | .setVote p v => (st.set_player_vote p v).getD st
  | .setTeam p t => (st.set_player_team opts p t).getD st

def PCState.runOps (opts : GameOptions) (players_max : Nat) (st : PCState) :
    List PCOp → PCState
  | [] => st
  | op :: ops => (st.applyOp opts players_max op).runOps opts players_max ops

/-! ### Association-list lemmas for the player map -/

def countP (P : Nat × LocalPlayer → Bool) (ps : List (Nat × LocalPlayer)) : Nat :=
  (ps.filter P).length

def namesOf (ps : List (Nat × LocalPlayer)) : List String :=
  ps.map (fun q => q.2.displayed_name)

theorem lookupPlayer_cons_self {q : Nat × LocalPlayer} {ps : List (Nat × LocalPlayer)}
    {pk : Nat} (h : q.1 = pk) : lookupPlayer (q :: ps) pk = some q.2 := by
  unfold lookupPlayer
  rw [List.find?_cons_of_pos]
  · rfl
  · simp [h]

theorem lookupPlayer_cons_ne {q : Nat × LocalPlayer} {ps : List (Nat × LocalPlayer)}
    {pk : Nat} (h : ¬ q.1 = pk) : lookupPlayer (q :: ps) pk = lookupPlayer ps pk := by
  unfold lookupPlayer
  rw [List.find?_cons_of_neg]
  simp [h]

theorem lookupPlayer_none_forall {ps : List (Nat × LocalPlayer)} {pk : Nat}
    (h : lookupPlayer ps pk = none) : ∀ q ∈ ps, q.1 ≠ pk := by
  intro q hq
  unfold lookupPlayer at h
  cases hf : ps.find? (fun r => r.1 == pk) with
  | some r => rw [hf] at h; simp at h
  | none =>
    have := List.find?_eq_none.mp hf q hq
    simpa using this

theorem not_mem_keys_of_lookup_none {ps : List (Nat × LocalPlayer)} {pk : Nat}
    (h : lookupPlayer ps pk = none) : pk ∉ ps.map Prod.fst := by
  intro hmem
  obtain ⟨q, hq, hfst⟩ := List.mem_map.mp hmem
  exact lookupPlayer_none_forall h q hq hfst

theorem lookupPlayer_mem {ps : List (Nat × LocalPlayer)} {pk : Nat} {lp : LocalPlayer}
    (h : lookupPlayer ps pk = some lp) : (pk, lp) ∈ ps := by
  induction ps with
  | nil => simp [lookupPlayer] at h
  | cons q rest ih =>
    by_cases hqk : q.1 = pk
    · rw [lookupPlayer_cons_self hqk] at h
      injection h with h
      subst h
      subst hqk
      exact List.mem_cons_self _ _
    · rw [lookupPlayer_cons_ne hqk] at h
      exact List.mem_cons_of_mem _ (ih h)

theorem countP_cons (P : Nat × LocalPlayer → Bool) (q : Nat × LocalPlayer)
    (ps : List (Nat × LocalPlayer)) :
    countP P (q :: ps) = (if P q then 1 else 0) + countP P ps := by
  by_cases h : P q <;> simp [countP, List.filter_cons, h, Nat.add_comm]

theorem countP_append (P : Nat × LocalPlayer → Bool) (ps qs : List (Nat × LocalPlayer)) :
    countP P (ps ++ qs) = countP P ps + countP P qs := by
  simp [countP, List.filter_append]

theorem removePlayer_of_not_mem {ps : List (Nat × LocalPlayer)} {pk : Nat}
    (h : pk ∉ ps.map Prod.fst) : removePlayer ps pk = ps := by
  unfold removePlayer
  refine List.filter_eq_self.mpr ?_
  intro q hq
  simp only [bne_iff_ne, ne_eq, decide_eq_true_eq]
  intro heq
  exact h (List.mem_map.mpr ⟨q, hq, heq⟩)

theorem removePlayer_cons_self {q : Nat × LocalPlayer} {ps : List (Nat × LocalPlayer)}
    {pk : Nat} (h : q.1 = pk) : removePlayer (q :: ps) pk = removePlayer ps pk := by
  simp [removePlayer, List.filter_cons, h]

theorem removePlayer_cons_ne {q : Nat × LocalPlayer} {ps : List (Nat × LocalPlayer)}
    {pk : Nat} (h : ¬ q.1 = pk) : removePlayer (q :: ps) pk = q :: removePlayer ps pk := by
  simp [removePlayer, List.filter_cons, h]

theorem removePlayer_sublist (ps : List (Nat × LocalPlayer)) (pk : Nat) :
    List.Sublist (removePlayer ps pk) ps :=
  List.filter_sublist ps

theorem countP_removePlayer (P : Nat × LocalPlayer → Bool) :
    ∀ {ps : List (Nat × LocalPlayer)} {pk : Nat} {lp : LocalPlayer},
    (ps.map Prod.fst).Nodup → lookupPlayer ps pk = some lp →
    countP P (removePlayer ps pk) + (if P (pk, lp) then 1 else 0) = countP P ps := by
  intro ps
  induction ps with
  | nil => intro pk lp _ h; simp [lookupPlayer] at h
  | cons q rest ih =>
    intro pk lp hnd h
    have hnd1 : (rest.map Prod.fst).Nodup := by
      simp only [List.map_cons, List.nodup_cons] at hnd
      exact hnd.2
    have hq1 : q.1 ∉ rest.map Prod.fst := by
      simp only [List.map_cons, List.nodup_cons] at hnd
      exact hnd.1
    by_cases hqk : q.1 = pk
    · rw [lookupPlayer_cons_self hqk] at h
      injection h with h
      subst h
      rw [removePlayer_cons_self hqk, removePlayer_of_not_mem (hqk ▸ hq1)]
      have hq : (pk, q.2) = q := by rw [← hqk]
      rw [hq, countP_cons]
      exact Nat.add_comm _ _
    · rw [lookupPlayer_cons_ne hqk] at h
      rw [removePlayer_cons_ne hqk, countP_cons, countP_cons]
      have := ih hnd1 h
      omega

theorem updatePlayer_cons (q : Nat × LocalPlayer) (ps : List (Nat × LocalPlayer))
    (pk : Nat) (f : LocalPlayer → LocalPlayer) :
    updatePlayer (q :: ps) pk f
      = (if q.1 = pk then (q.1, f q.2) else q) :: updatePlayer ps pk f := by
  by_cases h : q.1 = pk <;> simp [updatePlayer, h]

theorem updatePlayer_of_not_mem {ps : List (Nat × LocalPlayer)} {pk : Nat}
    (f : LocalPlayer → LocalPlayer) (h : pk ∉ ps.map Prod.fst) :
    updatePlayer ps pk f = ps := by
  induction ps with
  | nil => rfl
  | cons q rest ih =>
    rw [updatePlayer_cons]
    have hq : ¬ q.1 = pk := by
      intro hcon
      exact h (by simp [hcon])
    rw [if_neg hq]
    congr 1
    exact ih (by intro hm; exact h (by simp [hm]))

theorem keys_updatePlayer (ps : List (Nat × LocalPlayer)) (pk : Nat)
    (f : LocalPlayer → LocalPlayer) :
    (updatePlayer ps pk f).map Prod.fst = ps.map Prod.fst := by
  induction ps with
  | nil => rfl
  | cons q rest ih =>
    rw [updatePlayer_cons]
    by_cases h : q.1 = pk <;> simp [h, ih]

theorem namesOf_updatePlayer (ps : List (Nat × LocalPlayer)) (pk : Nat)
    {f : LocalPlayer → LocalPlayer}
    (hf : ∀ x, (f x).displayed_name = x.displayed_name) :
    namesOf (updatePlayer ps pk f) = namesOf ps := by
  induction ps with
  | nil => rfl
  | cons q rest ih =>
    rw [updatePlayer_cons]
    by_cases h : q.1 = pk <;> simp [namesOf, h, hf] <;> simpa [namesOf] using ih

theorem countP_updatePlayer (P : Nat × LocalPlayer → Bool)
    (f : LocalPlayer → LocalPlayer) :
    ∀ {ps : List (Nat × LocalPlayer)} {pk : Nat} {lp : LocalPlayer},
    (ps.map Prod.fst).Nodup → lookupPlayer ps pk = some lp →
    countP P (updatePlayer ps pk f) + (if P (pk, lp) then 1 else 0)
      = countP P ps + (if P (pk, f lp) then 1 else 0) := by
  intro ps
  induction ps with
  | nil => intro pk lp _ h; simp [lookupPlayer] at h
  | cons q rest ih =>
    intro pk lp hnd h
    have hnd1 : (rest.map Prod.fst).Nodup := by
      simp only [List.map_cons, List.nodup_cons] at hnd
      exact hnd.2
    have hq1 : q.1 ∉ rest.map Prod.fst := by
      simp only [List.map_cons, List.nodup_cons] at hnd
      exact hnd.1
    by_cases hqk : q.1 = pk
    · rw [lookupPlayer_cons_self hqk] at h
      injection h with h
      subst h
      rw [updatePlayer_cons, if_pos hqk]
      rw [updatePlayer_of_not_mem f (hqk ▸ hq1), countP_cons, countP_cons]
      have hqpair : (pk, q.2) = q := by rw [← hqk]
      have hqpair2 : ((q.1, f q.2) : Nat × LocalPlayer).1 = q.1 := rfl
      rw [hqpair]
      have : (pk, f q.2) = (q.1, f q.2) := by rw [hqk]
      rw [this]
      omega
    · rw [lookupPlayer_cons_ne hqk] at h
      rw [updatePlayer_cons, if_neg hqk, countP_cons, countP_cons]
      have := ih hnd1 h
      omega

theorem lookupPlayer_updatePlayer_self {ps : List (Nat × LocalPlayer)} {pk : Nat}
    {lp : LocalPlayer} (f : LocalPlayer → LocalPlayer)
    (h : lookupPlayer ps pk = some lp) :
    lookupPlayer (updatePlayer ps pk f) pk = some (f lp) := by
  induction ps with
  | nil => simp [lookupPlayer] at h
  | cons q rest ih =>
    rw [updatePlayer_cons]
    by_cases hqk : q.1 = pk
    · rw [lookupPlayer_cons_self hqk] at h
      injection h with h
      subst h
      rw [if_pos hqk]
      exact lookupPlayer_cons_self hqk
    · rw [lookupPlayer_cons_ne hqk] at h
      rw [if_neg hqk, lookupPlayer_cons_ne hqk]
      exact ih h

theorem lookupPlayer_append_sing_self {ps : List (Nat × LocalPlayer)} {pk : Nat}
    (lp : LocalPlayer) (h : lookupPlayer ps pk = none) :
    lookupPlayer (ps ++ [(pk, lp)]) pk = some lp := by
  induction ps with
  | nil => exact lookupPlayer_cons_self rfl
  | cons q rest ih =>
    by_cases hqk : q.1 = pk
    · rw [lookupPlayer_cons_self hqk] at h
      exact absurd h (by simp)
    · rw [lookupPlayer_cons_ne hqk] at h
      show lookupPlayer (q :: (rest ++ [(pk, lp)])) pk = some lp
      rw [lookupPlayer_cons_ne hqk]
      exact ih h

/-! ### Player-controller invariant -/

theorem readySpec_eq_countP (st : PCState) :
    st.readySpec = (countP (fun q => q.2.is_ready) st.players : Int) := rfl

theorem votedSpec_eq_countP (st : PCState) :
    st.votedSpec = (countP (fun q => q.2.voted_for.isSome) st.players : Int) := rfl

theorem countP_singleton (P : Nat × LocalPlayer → Bool) (x : Nat × LocalPlayer) :
    countP P [x] = if P x then 1 else 0 := by
  by_cases h : P x <;> simp [countP, List.filter_cons, h]

/-- Reachability invariant of the player controller: unique player keys,
counters matching a full recount, and displayed names pairwise distinct
and all registered in `_unique_displayed_names`. -/
structure PCState.Inv (st : PCState) : Prop where
  keys_nodup : (st.players.map Prod.fst).Nodup
  ready_ok : st.ready_count = st.readySpec
  voted_ok : st.voted_count = st.votedSpec
  names_nodup : (namesOf st.players).Nodup
  names_unique : ∀ q ∈ st.players, q.2.displayed_name ∈ st.unique_displayed_names

theorem PCState.init_inv (words : List String) : (PCState.init words).Inv := by
  constructor <;> simp [PCState.init, PCState.readySpec, PCState.votedSpec, namesOf]

theorem pick_unique_name_spec {used : List String} {base : String} {tags : List String}
    {nm : String} (h : pick_unique_name used base tags = some nm) :
    nm ∉ used ∧ (nm = base ∨ ∃ t ∈ tags, nm = base ++ "#" ++ t) := by
  unfold pick_unique_name at h
  by_cases hb : used.contains base
  · rw [if_neg (by simpa using hb)] at h
    cases hf : tags.find? (fun t => ¬ used.contains (base ++ "#" ++ t)) with
    | none => rw [hf] at h; simp at h
    | some t =>
      rw [hf] at h
      simp only [Option.map_some', Option.some.injEq] at h
      subst h
      have hpred := List.find?_some hf
      have hmem := List.mem_of_find?_eq_some hf
      simp only [decide_eq_true_eq] at hpred
      refine ⟨by simpa using hpred, Or.inr ⟨t, hmem, rfl⟩⟩
  · rw [if_pos (by simpa using hb)] at h
    injection h with h
    subst h
    exact ⟨by simpa using hb, Or.inl rfl⟩

theorem PCState.Inv.add_aux {st : PCState} (hinv : st.Inv) {pk : Nat} {nm : String}
    {lpX : LocalPlayer} (hkey : lookupPlayer st.players pk = none)
    (hnm : nm ∉ st.unique_displayed_names) (hname : lpX.displayed_name = nm)
    (hready : lpX.is_ready = false) (hvote : lpX.voted_for = none)
    (tr tb : TeamRec) :
    PCState.Inv { st with players := st.players ++ [(pk, lpX)]
                          unique_displayed_names := st.unique_displayed_names ++ [nm]
                          team_red := tr
                          team_blue := tb } := by
  constructor
  · simp only [List.map_append]
    rw [List.nodup_append]
    refine ⟨hinv.keys_nodup, by simp, ?_⟩
    intro a ha hb
    simp only [List.map_cons, List.map_nil, List.mem_singleton] at hb
    subst hb
    exact not_mem_keys_of_lookup_none hkey ha
  · show st.ready_count = _
    rw [readySpec_eq_countP]
    simp only []
    rw [countP_append, countP_singleton]
    rw [hinv.ready_ok, readySpec_eq_countP]
    simp [hready]
  · show st.voted_count = _
    rw [votedSpec_eq_countP]
    simp only []
    rw [countP_append, countP_singleton]
    rw [hinv.voted_ok, votedSpec_eq_countP]
    simp [hvote]
  · show (namesOf (st.players ++ [(pk, lpX)])).Nodup
    have hnames : namesOf (st.players ++ [(pk, lpX)]) = namesOf st.players ++ [nm] := by
      simp [namesOf, hname]
    rw [hnames, List.nodup_append]
    refine ⟨hinv.names_nodup, by simp, ?_⟩
    intro a ha hb
    simp only [List.mem_singleton] at hb
    subst hb
    obtain ⟨q, hq, hqname⟩ := List.mem_map.mp ha
    exact hnm (hqname ▸ hinv.names_unique q hq)
  · intro q hq
    simp only [List.mem_append, List.mem_singleton] at hq
    rcases hq with hq | hq
    · exact List.mem_append_left _ (hinv.names_unique q hq)
    · subst hq
      simp [hname]

theorem PCState.Inv.remove_aux {st : PCState} (hinv : st.Inv) {pk : Nat}
    {lp : LocalPlayer} (h : lookupPlayer st.players pk = some lp)
    (tr tb : TeamRec) :
    PCState.Inv { st with
      players := removePlayer st.players pk
      ready_count := if lp.is_ready then st.ready_count - 1 else st.ready_count
      voted_count := if lp.voted_for.isSome then st.voted_count - 1 else st.voted_count
      unique_displayed_names := st.unique_displayed_names.erase lp.displayed_name
      team_red := tr
      team_blue := tb } := by
  have hmem : (pk, lp) ∈ st.players := lookupPlayer_mem h
  constructor
  · exact hinv.keys_nodup.sublist (List.Sublist.map _ (removePlayer_sublist _ _))
  · show _ = _
    rw [readySpec_eq_countP]
    simp only []
    have hc := countP_removePlayer (fun q => q.2.is_ready) hinv.keys_nodup h
    have hr := hinv.ready_ok
    rw [readySpec_eq_countP] at hr
    by_cases hb : lp.is_ready <;> simp [hb] at hc ⊢ <;> omega
  · show _ = _
    rw [votedSpec_eq_countP]
    simp only []
    have hc := countP_removePlayer (fun q => q.2.voted_for.isSome) hinv.keys_nodup h
    have hr := hinv.voted_ok
    rw [votedSpec_eq_countP] at hr
    by_cases hb : lp.voted_for.isSome <;> simp [hb] at hc ⊢ <;> omega
  · exact hinv.names_nodup.sublist (List.Sublist.map _ (removePlayer_sublist _ _))
  · intro q hq
    have hq2 : q ∈ st.players := (removePlayer_sublist _ _).mem hq
    have hqk : q.1 ≠ pk := by
      unfold removePlayer at hq
      have := (List.mem_filter.mp hq).2
      simpa using this
    have hqlp : q ≠ (pk, lp) := by
      intro hcon
      rw [hcon] at hqk
      exact hqk rfl
    have hnn : (st.players.map (fun q => q.2.displayed_name)).Nodup := hinv.names_nodup
    have hinj := List.inj_on_of_nodup_map hnn
    have hne : q.2.displayed_name ≠ lp.displayed_name := by
      intro hcon
      exact hqlp (hinj hq2 hmem hcon)
    exact (List.mem_erase_of_ne hne).mpr (hinv.names_unique q hq2)

theorem PCState.Inv.update_aux {st : PCState} (hinv : st.Inv) {pk : Nat}
    {lp : LocalPlayer} (h : lookupPlayer st.players pk = some lp)
    (f : LocalPlayer → LocalPlayer)
    (hfname : ∀ x, (f x).displayed_name = x.displayed_name)
    (rc vc : Int)
    (hrc : rc + (if lp.is_ready then 1 else 0)
      = st.ready_count + (if (f lp).is_ready then 1 else 0))
    (hvc : vc + (if lp.voted_for.isSome then 1 else 0)
      = st.voted_count + (if (f lp).voted_for.isSome then 1 else 0))
    (tr tb : TeamRec) :
    PCState.Inv { st with players := updatePlayer st.players pk f
                          ready_count := rc
                          voted_count := vc
                          team_red := tr
                          team_blue := tb } := by
  constructor
  · show ((updatePlayer st.players pk f).map Prod.fst).Nodup
    rw [keys_updatePlayer]
    exact hinv.keys_nodup
  · show rc = _
    rw [readySpec_eq_countP]
    simp only []
    have hc := countP_updatePlayer (fun q => q.2.is_ready) f hinv.keys_nodup h
    have hr := hinv.ready_ok
    rw [readySpec_eq_countP] at hr
    by_cases h1 : lp.is_ready <;> by_cases h2 : (f lp).is_ready <;>
      simp [h1, h2] at hc hrc ⊢ <;> omega
  · show vc = _
    rw [votedSpec_eq_countP]
    simp only []
    have hc := countP_updatePlayer (fun q => q.2.voted_for.isSome) f hinv.keys_nodup h
    have hr := hinv.voted_ok
    rw [votedSpec_eq_countP] at hr
    by_cases h1 : lp.voted_for.isSome <;> by_cases h2 : (f lp).voted_for.isSome <;>
      simp [h1, h2] at hc hvc ⊢ <;> omega
  · show (namesOf (updatePlayer st.players pk f)).Nodup
    rw [namesOf_updatePlayer _ _ hfname]
    exact hinv.names_nodup
  · intro q hq
    unfold updatePlayer at hq
    obtain ⟨q0, hq0, hq0eq⟩ := List.mem_map.mp hq
    have : q.2.displayed_name = q0.2.displayed_name := by
      rw [← hq0eq]
      by_cases hb : q0.1 == pk <;> simp [hb, hfname]
    rw [this]
    exact hinv.names_unique q0 hq0

theorem add_player_inv {st : PCState} (hinv : st.Inv) {opts : GameOptions}
    {players_max : Nat} {p : PlayerRec} {tags : List String} {lp : LocalPlayer}
    {st' : PCState} (hres : st.add_player opts players_max p tags = some (lp, st')) :
    st'.Inv := by
  unfold PCState.add_player at hres
  cases hlook : lookupPlayer st.players p.pk with
  | some lp0 =>
    simp only [hlook, Option.some.injEq, Prod.mk.injEq] at hres
    obtain ⟨-, rfl⟩ := hres
    exact hinv
  | none =>
    simp only [hlook] at hres
    split at hres
    · exact absurd hres (by simp)
    · split at hres
      · exact absurd hres (by simp)
      · rename_i nm hpick
        obtain ⟨hnm, -⟩ := pick_unique_name_spec hpick
        split at hres
        · split at hres
          · simp only [Option.some.injEq, Prod.mk.injEq] at hres
            obtain ⟨-, rfl⟩ := hres
            exact hinv.add_aux hlook hnm rfl rfl rfl _ _
          · simp only [Option.some.injEq, Prod.mk.injEq] at hres
            obtain ⟨-, rfl⟩ := hres
            exact hinv.add_aux hlook hnm rfl rfl rfl _ _
        · simp only [Option.some.injEq, Prod.mk.injEq] at hres
          obtain ⟨-, rfl⟩ := hres
          exact hinv.add_aux hlook hnm rfl rfl rfl _ _

theorem remove_player_inv {st : PCState} (hinv : st.Inv) {opts : GameOptions}
    {p : PlayerRec} {lp' : LocalPlayer} {st' : PCState}
    (hres : st.remove_player opts p = some (lp', st')) : st'.Inv := by
  unfold PCState.remove_player at hres
  cases hlook : lookupPlayer st.players p.pk with
  | none => simp [hlook] at hres
  | some lp =>
    simp only [hlook] at hres
    split at hres
    · split at hres
      · simp only [Option.some.injEq, Prod.mk.injEq] at hres
        obtain ⟨-, rfl⟩ := hres
        exact hinv.remove_aux hlook _ _
      · simp only [Option.some.injEq, Prod.mk.injEq] at hres
        obtain ⟨-, rfl⟩ := hres
        exact hinv.remove_aux hlook _ _
      · exact absurd hres (by simp)
    · simp only [Option.some.injEq, Prod.mk.injEq] at hres
      obtain ⟨-, rfl⟩ := hres
      exact hinv.remove_aux hlook _ _

theorem set_ready_state_inv {st : PCState} (hinv : st.Inv) {p : PlayerRec}
    {b : Bool} {st' : PCState} (hres : st.set_ready_state p b = some st') :
    st'.Inv := by
  unfold PCState.set_ready_state at hres
  cases hlook : lookupPlayer st.players p.pk with
  | none => simp [hlook] at hres
  | some lp =>
    simp only [hlook] at hres
    split at hres
    · rename_i hne
      simp only [Option.some.injEq] at hres
      subst hres
      refine hinv.update_aux hlook (fun q => { q with is_ready := b })
        (fun x => rfl) _ _ ?_ ?_ _ _
      · by_cases h1 : lp.is_ready <;> by_cases h2 : b <;>
          simp [h1, h2] at hne ⊢ <;> omega
      · rfl
    · simp only [Option.some.injEq] at hres
      subst hres
      exact hinv

theorem set_player_vote_inv {st : PCState} (hinv : st.Inv) {p : PlayerRec}
    {v : String} {st' : PCState} (hres : st.set_player_vote p v = some st') :
    st'.Inv := by
  unfold PCState.set_player_vote at hres
  split at hres
  · exact absurd hres (by simp)
  · cases hlook : lookupPlayer st.players p.pk with
    | none => simp [hlook] at hres
    | some lp =>
      simp only [hlook] at hres
      by_cases hvf : lp.voted_for.isNone
      · simp only [hvf, if_true] at hres
        simp only [Option.some.injEq] at hres
        subst hres
        refine hinv.update_aux hlook (fun q => { q with voted_for := some v })
          (fun x => rfl) _ _ rfl ?_ _ _
        simp only [Option.isNone_iff_eq_none] at hvf
        simp [hvf]
      · have hfalse : lp.voted_for.isNone = false := Bool.eq_false_iff.mpr hvf
        simp only [hfalse, Bool.false_eq_true, if_false] at hres
        simp only [Option.some.injEq] at hres
        subst hres
        refine hinv.update_aux hlook (fun q => { q with voted_for := some v })
          (fun x => rfl) _ _ rfl ?_ _ _
        have hsome : lp.voted_for.isSome = true := by
          cases hcase : lp.voted_for
          · rw [hcase] at hfalse; simp at hfalse
          · simp
        simp [hsome]

theorem set_player_team_inv {st : PCState} (hinv : st.Inv) {opts : GameOptions}
    {p : PlayerRec} {team : String} {st' : PCState}
    (hres : st.set_player_team opts p team = some st') : st'.Inv := by
  unfold PCState.set_player_team at hres
  split at hres
  · exact absurd hres (by simp)
  · split at hres
    · exact absurd hres (by simp)
    · cases hlook : lookupPlayer st.players p.pk with
      | none => simp [hlook] at hres
      | some lp =>
        simp only [hlook] at hres
        cases htn : lp.team_name with
        | none => simp [htn] at hres
        | some cur =>
          simp only [htn] at hres
          split at hres
          · exact absurd hres (by simp)
          · by_cases hmem :
              ((if team = "red" then st.team_red else st.team_blue).member_ids.contains p.pk
                = true)
            · rw [if_pos hmem] at hres
              cases hres
              exact hinv
            · rw [if_neg hmem] at hres
              cases hres
              exact hinv.update_aux hlook (fun q => { q with team_name := some team })
                (fun x => rfl) _ _ rfl rfl _ _

theorem PCState.applyOp_inv {st : PCState} (hinv : st.Inv) (opts : GameOptions)
    (players_max : Nat) (op : PCOp) : (st.applyOp opts players_max op).Inv := by
  cases op with
  | add p tags =>
    simp only [PCState.applyOp]
    cases hres : st.add_player opts players_max p tags with
    | none => exact hinv
    | some pr =>
      obtain ⟨lp, st'⟩ := pr
      exact add_player_inv hinv hres
  | remove p =>
    simp only [PCState.applyOp]
    cases hres : st.remove_player opts p with
    | none => exact hinv
    | some pr =>
      obtain ⟨lp', st'⟩ := pr
      exact remove_player_inv hinv hres
  | setReady p b =>
    simp only [PCState.applyOp]
    cases hres : st.set_ready_state p b with
    | none => exact hinv
    | some st' => exact set_ready_state_inv hinv hres
  | setVote p v =>
    simp only [PCState.applyOp]
    cases hres : st.set_player_vote p v with
    | none => exact hinv
    | some st' => exact set_player_vote_inv hinv hres
  | setTeam p t =>
    simp only [PCState.applyOp]
    cases hres : st.set_player_team opts p t with
    | none => exact hinv
    | some st' => exact set_player_team_inv hinv hres

theorem PCState.runOps_inv {st : PCState} (hinv : st.Inv) (opts : GameOptions)
    (players_max : Nat) (ops : List PCOp) :
    (st.runOps opts players_max ops).Inv := by
  induction ops generalizing st with
  | nil => exact hinv
  | cons op rest ih => exact ih (st.applyOp_inv hinv opts players_max op)

/-- **C2**: for every sequence of player-controller operations (add,
remove, set ready state, set vote, set team) from a fresh controller, the
incrementally maintained `ready_count` equals the number of present
players whose ready flag is true and `voted_count` equals the number whose
voted-for field is non-null. -/
theorem counters_match_recount (opts : GameOptions) (players_max : Nat)
    (words : List String) (ops : List PCOp) :
    ((PCState.init words).runOps opts players_max ops).ready_count
      = ((PCState.init words).runOps opts players_max ops).readySpec ∧
    ((PCState.init words).runOps opts players_max ops).voted_count
      = ((PCState.init words).runOps opts players_max ops).votedSpec := by
  have h := PCState.runOps_inv (PCState.init_inv words) opts players_max ops
  exact ⟨h.ready_ok, h.voted_ok⟩

/-- **C6**: for a present player and a valid mode label, `set_player_vote`
succeeds, records the new label as the player's choice (overwriting any
earlier one), and increments `voted_count` exactly when the player had no
prior vote. -/
theorem set_player_vote_first_and_replace (st : PCState) (p : PlayerRec)
    (v : String) (lp : LocalPlayer) (hv : v ∈ GameModes.labels)
    (hlp : lookupPlayer st.players p.pk = some lp) :
    ∃ st', st.set_player_vote p v = some st' ∧
      lookupPlayer st'.players p.pk = some { lp with voted_for := some v } ∧
      st'.voted_count
        = (if lp.voted_for = none then st.voted_count + 1 else st.voted_count) := by
  unfold PCState.set_player_vote
  rw [if_neg (by simpa using hv)]
  simp only [hlp]
  by_cases hvf : lp.voted_for.isNone
  · simp only [hvf, if_true]
    refine ⟨_, rfl, ?_, ?_⟩
    · show lookupPlayer (updatePlayer st.players p.pk
          (fun q => { q with voted_for := some v })) p.pk = _
      exact lookupPlayer_updatePlayer_self _ hlp
    · simp only [Option.isNone_iff_eq_none] at hvf
      simp [hvf]
  · simp only [hvf, if_false]
    refine ⟨_, rfl, ?_, ?_⟩
    · show lookupPlayer (updatePlayer st.players p.pk
          (fun q => { q with voted_for := some v })) p.pk = _
      exact lookupPlayer_updatePlayer_self _ hlp
    · have : ¬ lp.voted_for = none := by
        intro hcon
        rw [hcon] at hvf
        simp at hvf
      simp [this]

/-- A one-player controller state used to witness C6. -/
def voteWitnessState : PCState :=
  { players := [(1, init_local_player ⟨1, "a"⟩ [])]
    unique_displayed_names := ["a"] }

/-- Witness for C6: a first vote on a concrete one-player state. -/
theorem set_player_vote_witness :
    ∃ st', voteWitnessState.set_player_vote ⟨1, "a"⟩ "single" = some st' ∧
      lookupPlayer st'.players 1
        = some { init_local_player ⟨1, "a"⟩ [] with voted_for := some "single" } ∧
      st'.voted_count
        = (if (init_local_player ⟨1, "a"⟩ []).voted_for = none then
            voteWitnessState.voted_count + 1 else voteWitnessState.voted_count) :=
  set_player_vote_first_and_replace voteWitnessState
    ⟨1, "a"⟩ "single" (init_local_player ⟨1, "a"⟩ [])
    (by simp [GameModes.labels]) (by rfl)

/-- **C7**: after any operation sequence the displayed names of present
players are pairwise distinct; a successful add of an absent player
records the join name as `old_displayed_name` and displays either the join
name itself or `join-name#tag` for one of the supplied random tags; and a
successful removal returns the player with the displayed name restored to
`old_displayed_name` (the name they joined with). -/
theorem displayed_names_unique (opts : GameOptions) (players_max : Nat)
    (words : List String) (ops : List PCOp) :
    (namesOf ((PCState.init words).runOps opts players_max ops).players).Nodup ∧
    (∀ p tags lp st',
      ((PCState.init words).runOps opts players_max ops).add_player opts players_max p tags
        = some (lp, st') →
      lookupPlayer ((PCState.init words).runOps opts players_max ops).players p.pk
        = none →
      lp.old_displayed_name = p.displayed_name ∧
      (lp.displayed_name = p.displayed_name ∨
        ∃ t ∈ tags, lp.displayed_name = p.displayed_name ++ "#" ++ t)) ∧
    (∀ p lp' st',
      ((PCState.init words).runOps opts players_max ops).remove_player opts p
        = some (lp', st') →
      lp'.displayed_name = lp'.old_displayed_name) := by
  have hinv := PCState.runOps_inv (PCState.init_inv words) opts players_max ops
  set st := (PCState.init words).runOps opts players_max ops with hst
  refine ⟨hinv.names_nodup, ?_, ?_⟩
  · intro p tags lp st' hres hlook
    unfold PCState.add_player at hres
    simp only [hlook] at hres
    split at hres
    · exact absurd hres (by simp)
    · split at hres
      · exact absurd hres (by simp)
      · rename_i nm hpick
        obtain ⟨-, hshape⟩ := pick_unique_name_spec hpick
        split at hres
        · split at hres
          · simp only [Option.some.injEq, Prod.mk.injEq] at hres
            obtain ⟨rfl, -⟩ := hres
            exact ⟨rfl, hshape⟩
          · simp only [Option.some.injEq, Prod.mk.injEq] at hres
            obtain ⟨rfl, -⟩ := hres
            exact ⟨rfl, hshape⟩
        · simp only [Option.some.injEq, Prod.mk.injEq] at hres
          obtain ⟨rfl, -⟩ := hres
          exact ⟨rfl, hshape⟩
  · intro p lp' st' hres
    unfold PCState.remove_player at hres
    cases hlook : lookupPlayer st.players p.pk with
    | none => simp [hlook] at hres
    | some lp =>
      simp only [hlook] at hres
      split at hres
      · split at hres
        · simp only [Option.some.injEq, Prod.mk.injEq] at hres
          obtain ⟨rfl, -⟩ := hres
          rfl
        · simp only [Option.some.injEq, Prod.mk.injEq] at hres
          obtain ⟨rfl, -⟩ := hres
          rfl
        · exact absurd hres (by simp)
      · simp only [Option.some.injEq, Prod.mk.injEq] at hres
        obtain ⟨rfl, -⟩ := hres
        rfl

/-- Witness for C7 at a one-add sequence followed by a removal. -/
theorem displayed_names_unique_witness :
    (namesOf ((PCState.init []).runOps {} 0 [.add ⟨1, "a"⟩ []]).players).Nodup ∧
    ∃ lp' st',
      ((PCState.init []).runOps {} 0 [.add ⟨1, "a"⟩ []]).remove_player {} ⟨1, "a"⟩
        = some (lp', st') ∧ lp'.displayed_name = lp'.old_displayed_name := by
  have h := displayed_names_unique {} 0 [] [.add ⟨1, "a"⟩ []]
  refine ⟨h.1, ?_⟩
  cases hres : ((PCState.init []).runOps {} 0 [.add ⟨1, "a"⟩ []]).remove_player {} ⟨1, "a"⟩ with
  | none => exact absurd hres (by decide)
  | some pr =>
    obtain ⟨lp1, st1⟩ := pr
    exact ⟨lp1, st1, rfl, h.2.2 ⟨1, "a"⟩ lp1 st1 hres⟩

/-- Witness for C8 at a concrete operation sequence. -/
theorem registry_refcount_witness :
    ((Storage.empty.runOps [.get (some 5) "a"]).contains "a" = true) ∧
    ((((Storage.empty.runOps [.get (some 5) "a"]).remove_game_controller "a").contains "a")
      = false) := by
  have h := registry_refcount_invariant [.get (some 5) "a"]
  have hlook : (Storage.empty.runOps [.get (some 5) "a"]).lookup "a" = some ⟨1, 5⟩ := by
    simp [Storage.runOps, Storage.applyOp, Storage.get_game_controller, Storage.finishGet,
      Storage.lookup, Storage.empty, Storage.insert, Storage.bump]
  refine ⟨(h.1 "a").mpr ?_, (h.2.2 "a" ⟨1, 5⟩ hlook).mpr rfl⟩
  unfold Storage.useCount
  rw [hlook]
  norm_num

/-! ## Winner marking (`GameController._mark_winners`)

`_mark_winners` walks `self._competitors` (players, or teams in team mode)
and stamps `is_winner`; the competitor view used here carries the fields
the method reads and writes. -/

/-- Python `max(...)` over a sequence (the default is never used: the
method returns early when no competitor is present). -/
def listMax {α : Type} [LinearOrder α] (dflt : α) : List α → α
  | [] => dflt
  | x :: xs => xs.foldl max x

structure Competitor where
  score : Int := 0
  time_left : ℚ := 0
  is_out : Bool := false
  is_winner : Option Bool := none
  deriving Repr, DecidableEq

/-- The best-score `if` block: winner iff the score matches the max. -/
def markScore (cs : List Competitor) : List Competitor :=
  cs.map (fun c =>
    { c with is_winner :=
        if c.score = listMax 0 (cs.map (fun d => d.score)) then some true
        else some false })

/-- The best-time `if` block: winner iff the time left matches the max. -/
def markTime (cs : List Competitor) : List Competitor :=
  cs.map (fun c =>
    { c with is_winner :=
        if c.time_left = listMax 0 (cs.map (fun d => d.time_left)) then some true
        else some false })

/-- The survival `if` block: winner iff not out. -/
def markSurv (cs : List Competitor) : List Competitor :=
  cs.map (fun c => { c with is_winner := some (!c.is_out) })

/-- The trailing `len(self._competitors) == 1` override. -/
def markSingle (cs : List Competitor) : List Competitor :=
  if cs.length = 1 then
    match cs with
    | [c] => [{ c with is_winner := some true }]
    | l => l
  else cs

def mark_step1 (wc : String) (cs : List Competitor) : List Competitor :=
  if wc = WIN_CONDITION_BEST_SCORE then markScore cs else cs

def mark_step2 (wc : String) (cs : List Competitor) : List Competitor :=
  if wc = WIN_CONDITION_BEST_TIME then markTime cs else cs

def mark_step3 (wc : String) (cs : List Competitor) : List Competitor :=
  if wc = WIN_CONDITION_SURVIVED then markSurv cs else cs

/-- `GameController._mark_winners` on the competitor list: early return on
no competitors, three independent `if` blocks on the win condition, then
the single-competitor override. -/
def mark_winners (wc : String) (cs : List Competitor) : List Competitor :=
  if cs.isEmpty then cs
  else markSingle (mark_step3 wc (mark_step2 wc (mark_step1 wc cs)))

theorem markSingle_of_len_ne {cs : List Competitor} (h : cs.length ≠ 1) :
    markSingle cs = cs := by
  unfold markSingle
  rw [if_neg h]

theorem markSingle_singleton (x : Competitor) :
    markSingle [x] = [{ x with is_winner := some true }] := rfl

theorem listMax_mem {α : Type} [LinearOrder α] (dflt : α) (x : α) (xs : List α) :
    ∀ y ∈ x :: xs, y ≤ listMax dflt (x :: xs) := by
  show ∀ y ∈ x :: xs, y ≤ xs.foldl max x
  induction xs generalizing x with
  | nil => intro y hy; simp at hy; simp [hy]
  | cons a t ih =>
    intro y hy
    simp only [List.mem_cons] at hy
    have step : ∀ z ∈ max x a :: t, z ≤ t.foldl max (max x a) := ih (max x a)
    rcases hy with rfl | hy
    · exact le_trans (le_max_left y a) (step _ (List.mem_cons_self _ _))
    · rcases hy with rfl | hy
      · exact le_trans (le_max_right x y) (step _ (List.mem_cons_self _ _))
      · exact step y (List.mem_cons_of_mem _ hy)

/-- **C4**: after game over with at least one competitor, under best-score
the winners are exactly the competitors of maximal score; under survival
with at least two competitors the winners are exactly the not-out
competitors; and a sole competitor is always marked winner, whatever the
win condition and out flag (the explicit override in the source, which the
claim itself carves out of the survival rule). -/
theorem mark_winners_correct (wc : String) (cs : List Competitor) (hne : cs ≠ []) :
    (wc = WIN_CONDITION_BEST_SCORE →
      ∀ c ∈ mark_winners wc cs,
        (c.is_winner = some true ↔ c.score = listMax 0 (cs.map (fun d => d.score)))) ∧
    (wc = WIN_CONDITION_SURVIVED → 2 ≤ cs.length →
      ∀ c ∈ mark_winners wc cs, (c.is_winner = some true ↔ c.is_out = false)) ∧
    (cs.length = 1 → ∀ c ∈ mark_winners wc cs, c.is_winner = some true) := by
  have hemp : cs.isEmpty = false := by
    cases cs with
    | nil => exact absurd rfl hne
    | cons a b => rfl
  refine ⟨?_, ?_, ?_⟩
  · rintro rfl c hc
    unfold mark_winners at hc
    simp only [hemp, Bool.false_eq_true, if_false] at hc
    have e1 : mark_step1 WIN_CONDITION_BEST_SCORE cs = markScore cs := by
      unfold mark_step1
      rw [if_pos rfl]
    have e2 : mark_step2 WIN_CONDITION_BEST_SCORE (markScore cs) = markScore cs := by
      unfold mark_step2
      rw [if_neg (by decide)]
    have e3 : mark_step3 WIN_CONDITION_BEST_SCORE (markScore cs) = markScore cs := by
      unfold mark_step3
      rw [if_neg (by decide)]
    rw [e1, e2, e3] at hc
    by_cases hlen : cs.length = 1
    · obtain ⟨c0, rfl⟩ := List.length_eq_one.mp hlen
      have hred : markSingle (markScore [c0]) = [{ c0 with is_winner := some true }] := by
        simp [markScore, markSingle, listMax]
      rw [hred] at hc
      simp only [List.mem_singleton] at hc
      subst hc
      simp [listMax]
    · have hms : (markScore cs).length ≠ 1 := by
        simpa [markScore] using hlen
      rw [markSingle_of_len_ne hms] at hc
      unfold markScore at hc
      obtain ⟨d, hd, rfl⟩ := List.mem_map.mp hc
      by_cases h : d.score = listMax 0 (cs.map (fun d => d.score)) <;> simp [h]
  · rintro rfl hlen c hc
    unfold mark_winners at hc
    simp only [hemp, Bool.false_eq_true, if_false] at hc
    have e1 : mark_step1 WIN_CONDITION_SURVIVED cs = cs := by
      unfold mark_step1
      rw [if_neg (by decide)]
    have e2 : mark_step2 WIN_CONDITION_SURVIVED cs = cs := by
      unfold mark_step2
      rw [if_neg (by decide)]
    have e3 : mark_step3 WIN_CONDITION_SURVIVED cs = markSurv cs := by
      unfold mark_step3
      rw [if_pos rfl]
    rw [e1, e2, e3] at hc
    have hms : (markSurv cs).length ≠ 1 := by
      simp only [markSurv, List.length_map]
      omega
    rw [markSingle_of_len_ne hms] at hc
    unfold markSurv at hc
    obtain ⟨d, hd, rfl⟩ := List.mem_map.mp hc
    by_cases h : d.is_out <;> simp [h]
  · intro hlen c hc
    unfold mark_winners at hc
    simp only [hemp, Bool.false_eq_true, if_false] at hc
    have hlen3 : (mark_step3 wc (mark_step2 wc (mark_step1 wc cs))).length = 1 := by
      unfold mark_step1 mark_step2 mark_step3
      split_ifs <;> simp [markScore, markTime, markSurv, hlen]
    obtain ⟨y, hy⟩ := List.length_eq_one.mp hlen3
    rw [hy, markSingle_singleton] at hc
    simp only [List.mem_singleton] at hc
    subst hc
    rfl

/-- Witness for C4 under best-score with two competitors. -/
theorem mark_winners_witness :
    (mark_winners WIN_CONDITION_BEST_SCORE
        [⟨3, 0, false, none⟩, ⟨5, 0, false, none⟩]
      = [⟨3, 0, false, some false⟩, ⟨5, 0, false, some true⟩]) ∧
    ((⟨5, 0, false, some true⟩ : Competitor).is_winner = some true ↔
      (⟨5, 0, false, some true⟩ : Competitor).score
        = listMax 0 (([⟨3, 0, false, none⟩, ⟨5, 0, false, none⟩] :
            List Competitor).map (fun d => d.score))) := by
  constructor
  · decide
  · exact (mark_winners_correct WIN_CONDITION_BEST_SCORE
      [⟨3, 0, false, none⟩, ⟨5, 0, false, none⟩] (by decide)).1 rfl
      ⟨5, 0, false, some true⟩ (by decide)

/-! ## Tick decay (`GameController._handle_tick`, playing branch)

Python computes `total_seconds() ** (1 + speed_up_percent/100)` in
floating point; its exact mathematical reading is a real power, so this
section models the playing branch of `_handle_tick` over the reals. -/

/-- The decayed elapsed time `t ** (1 + speed_up_percent/100)`. -/
noncomputable def psec (speed_up_percent : ℝ) (t : ℝ) : ℝ :=
  t ^ (1 + speed_up_percent / 100)

structure RCompetitor where
  time_left : ℝ
  is_out : Bool

/-- The `STATE_PLAYING` branch of `_handle_tick` for a host tick: no-op
without a configured duration; otherwise every competitor loses the
difference between the decayed elapsed time at this tick and at the
previous one (the previous tick defaulting to `started_at`), and under
survival a competitor reaching zero or below is clamped to zero and
marked out.  Returns the competitors and the updated `_last_tick`. -/
noncomputable def handle_tick_playing (game_duration speed_up_percent : ℝ)
    (win_condition : String) (started_at : ℝ) (last_tick : Option ℝ)
    (now : ℝ) (competitors : List RCompetitor) : List RCompetitor × Option ℝ :=
  if game_duration = 0 then (competitors, last_tick)
  else
    let prev_tick := last_tick.getD started_at
    let now_psec := psec speed_up_percent (now - started_at)
    let prev_psec := psec speed_up_percent (prev_tick - started_at)
    (competitors.map (fun c =>
      if win_condition = WIN_CONDITION_SURVIVED ∧
          c.time_left - (now_psec - prev_psec) ≤ 0
      then ⟨0, true⟩
      else ⟨c.time_left - (now_psec - prev_psec), c.is_out⟩), some now)

/-- **C3**: on a host tick in the playing state with a configured game
duration, each competitor's time-left is decremented by exactly
`d(t_now) - d(t_prev)` where `d t = t ** (1 + speedUpPercent/100)` and
`t_now`, `t_prev` are the elapsed seconds since `started_at` at the
current and previous tick (the previous tick defaulting to `started_at`);
and under survival any competitor whose time-left reaches or crosses zero
is set to exactly zero and marked out. -/
theorem handle_tick_playing_decrement (gd su : ℝ) (wc : String) (started_at : ℝ)
    (last_tick : Option ℝ) (now : ℝ) (cs : List RCompetitor) (hgd : gd ≠ 0) :
    ∀ i (hi : i < cs.length),
      (handle_tick_playing gd su wc started_at last_tick now cs).1[i]? = some (
        if wc = WIN_CONDITION_SURVIVED ∧
            cs[i].time_left
              - (psec su (now - started_at)
                 - psec su (last_tick.getD started_at - started_at)) ≤ 0
        then ⟨0, true⟩
        else ⟨cs[i].time_left
              - (psec su (now - started_at)
                 - psec su (last_tick.getD started_at - started_at)),
              cs[i].is_out⟩) := by
  intro i hi
  unfold handle_tick_playing
  rw [if_neg hgd]
  simp only [List.getElem?_map, List.getElem?_eq_getElem hi]
  rfl

/-- Witness for C3: one competitor, no speed-up, one tick at t = 2. -/
theorem handle_tick_playing_witness :
    ((handle_tick_playing 30 0 WIN_CONDITION_BEST_SCORE 0 none 2 [⟨10, false⟩]).1[0]?
      = some ⟨10 - (psec 0 (2 - 0) - psec 0 (Option.getD none 0 - 0)), false⟩) ∧
    (10 : ℝ) - (psec 0 (2 - 0) - psec 0 (Option.getD none 0 - 0)) = 8 := by
  constructor
  · have h := handle_tick_playing_decrement 30 0 WIN_CONDITION_BEST_SCORE 0 none 2
      [⟨10, false⟩] (by norm_num) 0 (by norm_num)
    rw [h]
    rw [if_neg (by simp [WIN_CONDITION_BEST_SCORE, WIN_CONDITION_SURVIVED])]
    rfl
  · have h1 : (1 : ℝ) + 0 / 100 = 1 := by norm_num
    simp only [psec, h1, Real.rpow_one, Option.getD]
    norm_num

/-! ## Game controller (`GameController`)

One session's state machine over rational timestamps.  The repository
(`GameSession` model) is inlined as `SessionRec` with its `start_game`,
`game_over` and password-check behaviour; `timezone.now()` becomes an
explicit `now` argument on every handler.  The decayed elapsed-time
function of the tick (a float power, see the real-valued section above)
enters as the parameter `psecQ`, and the successor-session id produced by
`create_from_previous` as the parameter `new_sid`. -/

structure SessionRec where
  mode : String
  players_max : Nat
  players_now : Nat := 0
  password : Option String := none
  started_at : Option ℚ := none
  is_finished : Bool := false
  finished_at : Option ℚ := none
  deriving Repr, DecidableEq

/-- `GameSession.check_password` (Django hash check, on the stored plain
password in this model).  Only consulted when a password is set. -/
def SessionRec.check_password (sess : SessionRec) (pw : Option String) : Bool :=
  match sess.password, pw with
  | some sp, some p => p == sp
  | some _, none => false
  | none, _ => true

/-- `GameSession.start_game`: stamp `started_at` on the first call. -/
def SessionRec.start_game (sess : SessionRec) (now : ℚ) : SessionRec :=
  if sess.started_at.isNone then { sess with started_at := some now } else sess

/-- `GameSession.game_over`: stamp `finished_at` and the flag once. -/
def SessionRec.game_over (sess : SessionRec) (now : ℚ) : SessionRec :=
  if ¬ sess.is_finished ∧ sess.finished_at.isNone then
    { sess with finished_at := some now, is_finished := true }
  else sess

/-- `GameController._init_options` (mode values are the one-letter codes). -/
def init_options (mode : String) (players_max : Nat) : GameOptions :=
  let base : GameOptions := {}
  let o :=
    if mode = "s" then base
    else if mode = "i" then { base with strict_mode := true }
    else if mode = "e" then
      { base with game_duration := 30, win_condition := WIN_CONDITION_SURVIVED,
                  time_per_word := 1/2, speed_up_percent := 15 }
    else if mode = "t" then
      { base with game_duration := 0, team_mode := true, points_difference := 50 }
    else base
  if players_max ≠ 1 then { o with start_delay := 3 } else o

inductive ETarget
  | all
  | player
  deriving Repr, DecidableEq

/-- Outbound event payloads.  Snapshot-carrying events store the state the
serializer would dump (`to_dict` field selection is presentation only). -/
inductive EData
  | initialState (player : LocalPlayer) (words : List String) (competitors : PCState)
  | competitors (pc : PCState)
  | startDelay (d : ℚ)
  | unit
  | word (w : String)
  | results (pc : PCState)
  | votes (vs : List (String × Nat))
  | modes (ms : List String)
  | newGame (sid : Option String)
  | newHost (hid : Option Nat)
  deriving Repr, DecidableEq

structure SEvent where
  target : ETarget
  type : String
  data : EData
  deriving Repr, DecidableEq

inductive GCErr
  | playerJoinRefused
  | invalidOperation
  | keyError
  | invalidModeChoice
  | nameExhausted
  | stopIteration
  deriving Repr, DecidableEq

structure GCState where
  session : SessionRec
  options : GameOptions
  state : Option String
  modes_available : List String := GameModes.labels
  game_begins_at : Option ℚ := none
  game_ends_at : Option ℚ := none
  last_tick : Option ℚ := none
  host_id : Option Nat := none
  pc : PCState
  wp : WPState
  new_session_id : Option String := none
  deriving Repr, DecidableEq

/-- `WordListProvider.words` (the property refills an empty list). -/
def WPState.wordsProp (pages : Nat → List String) (s : WPState) :
    List String × WPState :=
  if s.words.isEmpty then
    let s' := s.extend_word_list pages
    (s'.words, s')
  else (s.words, s)

/-- `GameController.__init__`: `none` is the `GameOverError` on a session
already started or finished. -/
def GCState.init (pages : Nat → List String) (sess : SessionRec) : Option GCState :=
  if sess.started_at.isSome ∨ sess.is_finished then none
  else
    let opts := init_options sess.mode sess.players_max
    let ws := (WPState.initProvider pages).wordsProp pages
    some { session := sess, options := opts, state := some "preparing",
           pc := PCState.init ws.1, wp := ws.2 }

def players_update_event (g : GCState) : SEvent :=
  ⟨.all, "players_update", .competitors g.pc⟩

def votes_update_event (g : GCState) : SEvent :=
  ⟨.all, "votes_update", .votes (GameModes.labels.map (fun m =>
    (m, (g.pc.players.filter (fun q => q.2.voted_for = some m)).length)))⟩

/-- `GameController._can_player_join`. -/
def GCState.can_player_join (g : GCState) (p : PlayerRec) (password : Option String) :
    Bool :=
  if 0 < g.session.players_max ∧ g.session.players_max ≤ g.pc.player_count then false
  else if g.state ≠ some "preparing" then false
  else if (lookupPlayer g.pc.players p.pk).isSome then false
  else if g.session.password.isSome ∧ ¬ g.session.check_password password then false
  else true

/-- `GameController._handle_player_join` (with the `updates_players`
wrapper appending the `PLAYERS_UPDATE`).  `nameExhausted` is the model
artifact for an exhausted tag supply in the deduplication loop. -/
def GCState.handle_player_join (g : GCState) (p : PlayerRec)
    (password : Option String) (tags : List String) :
    Except GCErr (List SEvent × GCState) :=
  if g.can_player_join p password then
    match g.pc.add_player g.options g.session.players_max p tags with
    | none => .error .nameExhausted
    | some (lp, pc') =>
      let g' := { g with pc := pc',
                         session := { g.session with players_now := pc'.player_count } }
      .ok ([⟨.player, "initial_state", .initialState lp g'.wp.words g'.pc⟩,
            players_update_event g'], g')
  else .error .playerJoinRefused

/-- `GameController._set_new_host`: any remaining player becomes host (the
source draws uniformly at random with `random.choice`; the claims hold
for every choice, and the model fixes the first player in insertion
order). -/
def GCState.set_new_host (g : GCState) : SEvent × GCState :=
  let hid := (g.pc.players.head?).map (fun q => q.2.id)
  (⟨.all, "new_host", .newHost hid⟩, { g with host_id := hid })

def GCState.can_begin_playing (g : GCState) : Bool :=
  if g.state ≠ some "preparing" then false
  else 0 < g.pc.player_count ∧ (g.pc.player_count : Int) ≤ g.pc.ready_count

def GCState.can_enter_next_game (g : GCState) : Bool :=
  if g.state ≠ some "voting" then false
  else 0 < g.pc.player_count ∧ (g.pc.player_count : Int) ≤ g.pc.voted_count

/-- `LocalTeam.is_out` (derived: all members out; `all` of the empty team
is true, as in Python). -/
def TeamRec.team_is_out (t : TeamRec) (pc : PCState) : Bool :=
  t.member_ids.all (fun pk =>
    match lookupPlayer pc.players pk with
    | some lp => lp.is_out
    | none => true)

/-- `LocalTeam.score` (derived: sum of member scores). -/
def TeamRec.team_score (t : TeamRec) (pc : PCState) : Int :=
  (t.member_ids.map (fun pk =>
    match lookupPlayer pc.players pk with
    | some lp => lp.score
    | none => 0)).sum

/-- `GameController._competitors`, reduced to the out-flags. -/
def GCState.competitor_outs (g : GCState) : List Bool :=
  if g.options.team_mode then
    [g.pc.team_red.team_is_out g.pc, g.pc.team_blue.team_is_out g.pc]
  else g.pc.players.map (fun q => q.2.is_out)

/-- `GameController._competitors`, reduced to the scores. -/
def GCState.competitor_scores (g : GCState) : List Int :=
  if g.options.team_mode then
    [g.pc.team_red.team_score g.pc, g.pc.team_blue.team_score g.pc]
  else g.pc.players.map (fun q => q.2.score)

def GCState.competitor_count (g : GCState) : Nat :=
  if g.options.team_mode then 2 else g.pc.players.length

/-- The points-difference trigger in `_can_begin_voting` (a Python `set`
of the scores; `max`, remove, `max` of the rest). -/
def GCState.points_diff_reached (g : GCState) : Bool :=
  let scores := g.competitor_scores.dedup
  if scores.isEmpty then false
  else
    let top := listMax 0 scores
    let rest := scores.erase top
    if rest.isEmpty then false
    else decide (g.options.points_difference ≤ top - listMax 0 rest)

/-- `GameController._can_begin_voting`. -/
def GCState.can_begin_voting (g : GCState) (now : ℚ) : Bool :=
  if g.state ≠ some "playing" then false
  else if g.pc.player_count = 0 then true
  else if g.options.win_condition = WIN_CONDITION_SURVIVED then
    let out_count := (g.competitor_outs.filter id).length
    decide (0 < out_count ∧ g.competitor_count - 1 ≤ out_count)
  else if decide (g.options.game_duration ≠ 0) &&
      (match g.game_ends_at with | some e => decide (e ≤ now) | none => false) then true
  else if g.options.points_difference ≠ 0 ∧ g.points_diff_reached then true
  else false

/-- `GameController._post_start`: set `_game_ends_at` and hand each
competitor the full duration. -/
def GCState.post_start (g : GCState) : GCState :=
  if g.options.game_duration ≠ 0 then
    let ends := g.session.started_at.getD 0 + g.options.game_duration
    let g1 := { g with game_ends_at := some ends }
    if g.options.team_mode then
      { g1 with pc := { g1.pc with
          team_red := { g1.pc.team_red with time_left := some g.options.game_duration }
          team_blue := { g1.pc.team_blue with time_left := some g.options.game_duration } } }
    else
      { g1 with pc := { g1.pc with
          players := g1.pc.players.map (fun q =>
            (q.1, { q.2 with time_left := some g.options.game_duration })) } }
  else g

/-- `GameController._start_game`. -/
def GCState.start_game (g : GCState) (now : ℚ) : SEvent × GCState :=
  let g1 := { g with state := some "playing", session := g.session.start_game now }
  (⟨.all, "start_game", .unit⟩, g1.post_start)

/-- The best-score pass of the non-team `_mark_winners`. -/
def markPlayersScore (wc : String) (ps : List (Nat × LocalPlayer)) :
    List (Nat × LocalPlayer) :=
  if wc = WIN_CONDITION_BEST_SCORE then
    ps.map (fun q => (q.1, { q.2 with is_winner :=
      (if q.2.score = listMax 0 (ps.map (fun r => r.2.score)) then some true
       else some false) }))
  else ps

/-- The best-time pass of the non-team `_mark_winners` (`max` over the
nullable time-left reads 0 for null, which the reachable best-time states
never hit). -/
def markPlayersTime (wc : String) (ps : List (Nat × LocalPlayer)) :
    List (Nat × LocalPlayer) :=
  if wc = WIN_CONDITION_BEST_TIME then
    ps.map (fun q => (q.1, { q.2 with is_winner :=
      (if q.2.time_left.getD 0 = listMax 0 (ps.map (fun r => r.2.time_left.getD 0))
       then some true else some false) }))
  else ps

/-- The survival pass of the non-team `_mark_winners`. -/
def markPlayersSurv (wc : String) (ps : List (Nat × LocalPlayer)) :
    List (Nat × LocalPlayer) :=
  if wc = WIN_CONDITION_SURVIVED then
    ps.map (fun q => (q.1, { q.2 with is_winner := some (!q.2.is_out) }))
  else ps

/-- The single-competitor override of `_mark_winners`. -/
def markPlayersLast (ps : List (Nat × LocalPlayer)) : List (Nat × LocalPlayer) :=
  if ps.length = 1 then
    match ps with
    | [q] => [(q.1, { q.2 with is_winner := some true })]
    | l => l
  else ps

/-- The non-team `_mark_winners` over the player map (field updates only). -/
def markPlayers (wc : String) (ps : List (Nat × LocalPlayer)) :
    List (Nat × LocalPlayer) :=
  if ps.isEmpty then ps
  else markPlayersLast (markPlayersSurv wc (markPlayersTime wc (markPlayersScore wc ps)))

/-- `LocalTeam.is_winner` setter: write the flag onto every member. -/
def setTeamWinner (pc : PCState) (t : TeamRec) (b : Bool) : PCState :=
  { pc with players := pc.players.map (fun q =>
      if t.member_ids.contains q.1 then (q.1, { q.2 with is_winner := some b })
      else q) }

/-- The best-score pass of the team-mode `_mark_winners`. -/
def markTeamsScore (wc : String) (pc : PCState) : PCState :=
  if wc = WIN_CONDITION_BEST_SCORE then
    let rs := pc.team_red.team_score pc
    let bs := pc.team_blue.team_score pc
    let m := max rs bs
    setTeamWinner (setTeamWinner pc pc.team_red (decide (rs = m)))
      pc.team_blue (decide (bs = m))
  else pc

/-- The best-time pass of the team-mode `_mark_winners`. -/
def markTeamsTime (wc : String) (pc : PCState) : PCState :=
  if wc = WIN_CONDITION_BEST_TIME then
    let rt := pc.team_red.time_left.getD 0
    let bt := pc.team_blue.time_left.getD 0
    let m := max rt bt
    setTeamWinner (setTeamWinner pc pc.team_red (decide (rt = m)))
      pc.team_blue (decide (bt = m))
  else pc

/-- The survival pass of the team-mode `_mark_winners`. -/
def markTeamsSurv (wc : String) (pc : PCState) : PCState :=
  if wc = WIN_CONDITION_SURVIVED then
    setTeamWinner (setTeamWinner pc pc.team_red (!(pc.team_red.team_is_out pc)))
      pc.team_blue (!(pc.team_blue.team_is_out pc))
  else pc

/-- The team-mode `_mark_winners` (competitors are always the two teams,
so the single-competitor override never fires). -/
def markTeams (wc : String) (pc : PCState) : PCState :=
  markTeamsSurv wc (markTeamsTime wc (markTeamsScore wc pc))

def GCState.mark_winners_gc (g : GCState) : GCState :=
  if g.options.team_mode then { g with pc := markTeams g.options.win_condition g.pc }
  else { g with pc := { g.pc with
    players := markPlayers g.options.win_condition g.pc.players } }

/-- The result rows `PlayerController.save_results` hands to
`GameSession.save_results`. -/
structure ResultRow where
  score : Int
  speed : ℚ
  is_winner : Option Bool
  correct_words : Nat
  incorrect_words : Nat
  mistake_ratio : ℚ
  team_name : Option String
  player_pk : Nat
  deriving Repr, DecidableEq

def PCState.save_results_rows (opts : GameOptions) (st : PCState) : List ResultRow :=
  st.players.map (fun q =>
    { score := q.2.score, speed := q.2.speed, is_winner := q.2.is_winner
      correct_words := q.2.correct_words, incorrect_words := q.2.incorrect_words
      mistake_ratio := q.2.mistake_ratio
      team_name := if opts.team_mode then q.2.team_name else none
      player_pk := q.2.id })

/-- `GameController._game_over`: enter voting, mark the session finished,
mark winners, persist the result rows and emit `GAME_OVER`. -/
def GCState.game_over (g : GCState) (now : ℚ) : SEvent × GCState :=
  let g1 := { g with state := some "voting", session := g.session.game_over now }
  let g2 := g1.mark_winners_gc
  (⟨.all, "game_over", .results g2.pc⟩, g2)

/-- `GameController._create_new_game`: the winning-mode tally and the
successor session belong to the repository; the model takes the successor
id as `new_sid`.  The source then sets `_state = None`. -/
def GCState.create_new_game (g : GCState) (new_sid : String) : SEvent × GCState :=
  let g1 := { g with new_session_id := some new_sid, state := none }
  (⟨.all, "new_game", .newGame (some new_sid)⟩, g1)

/-- `GameController._enter_playing_stage`. -/
def GCState.enter_playing_stage (g : GCState) (now : ℚ) : List SEvent × GCState :=
  let gb : SEvent := ⟨.all, "game_begins", .startDelay g.options.start_delay⟩
  if g.options.start_delay ≤ 0 then
    let r := g.start_game now
    ([gb, r.1], r.2)
  else
    ([gb], { g with game_begins_at := some (now + g.options.start_delay) })

/-- `GameController._update_game_stage`. -/
def GCState.update_game_stage (g : GCState) (now : ℚ) (new_sid : String) :
    List SEvent × GCState :=
  if g.can_begin_playing then g.enter_playing_stage now
  else if g.can_begin_voting now then
    let r := g.game_over now
    ([r.1], r.2)
  else if g.can_enter_next_game then
    let r := g.create_new_game new_sid
    ([r.1], r.2)
  else ([], g)

/-- `GameController._handle_player_leave` with its wrapper
(`requires_player`, `updates_players`, `updates_stage`). -/
def GCState.handle_player_leave (g : GCState) (p : PlayerRec) (now : ℚ)
    (new_sid : String) : Except GCErr (List SEvent × GCState) :=
  if (lookupPlayer g.pc.players p.pk).isNone then .ok ([], g)
  else
    match g.pc.remove_player g.options p with
    | none => .error .keyError
    | some (_, pc') =>
      let g1 := { g with pc := pc',
                         session := { g.session with players_now := pc'.player_count } }
      let hostStep : List SEvent × GCState :=
        if g.host_id = some p.pk then
          let r := g1.set_new_host
          ([r.1], r.2)
        else ([], g1)
      let g2 := hostStep.2
      let votesEvs : List SEvent :=
        if g2.state = some "voting" ∧ 0 < g2.pc.player_count then
          [votes_update_event g2]
        else []
      let stage := g2.update_game_stage now new_sid
      .ok (hostStep.1 ++ votesEvs ++ [players_update_event g2] ++ stage.1, stage.2)

/-- `GameController._handle_player_ready` with its wrapper. -/
def GCState.handle_player_ready (g : GCState) (p : PlayerRec) (payload : Bool)
    (now : ℚ) (new_sid : String) : Except GCErr (List SEvent × GCState) :=
  if (lookupPlayer g.pc.players p.pk).isNone then .ok ([], g)
  else if g.state ≠ some "preparing" then .error .invalidOperation
  else
    match g.pc.set_ready_state p payload with
    | none => .error .keyError
    | some pc' =>
      let g1 := { g with pc := pc' }
      let stage := g1.update_game_stage now new_sid
      .ok ([players_update_event g1] ++ stage.1, stage.2)

/-- The `min(duration, time_left + bonus)` write on the player's team. -/
def bumpTeamTime (opts : GameOptions) (pc : PCState) (tn : Option String)
    (bonus : ℚ) : PCState :=
  match tn with
  | some "red" => { pc with team_red := { pc.team_red with
      time_left := pc.team_red.time_left.map
        (fun tl => min opts.game_duration (tl + bonus)) } }
  | some "blue" => { pc with team_blue := { pc.team_blue with
      time_left := pc.team_blue.time_left.map
        (fun tl => min opts.game_duration (tl + bonus)) } }
  | _ => pc

/-- `GameController._handle_word` with its wrapper (`requires_player`,
`updates_players`).  The per-player iterator advances on the comparison
itself, so it moves on a mismatch too. -/
def GCState.handle_word (g : GCState) (p : PlayerRec) (payload : String)
    (pages : Nat → List String) (now : ℚ) : Except GCErr (List SEvent × GCState) :=
  if (lookupPlayer g.pc.players p.pk).isNone then .ok ([], g)
  else if g.state ≠ some "playing" then .error .invalidOperation
  else
    match lookupPlayer g.pc.players p.pk with
    | none => .error .keyError
    | some lp =>
      if lp.is_out then .error .invalidOperation
      else
        match lp.next_words with
        | [] => .error .stopIteration
        | w :: rest =>
          let correct := payload = w
          let wl : Nat := payload.length
          let f : LocalPlayer → LocalPlayer := fun q =>
            if correct then
              { q with next_words := rest,
                       score := q.score + wl,
                       total_word_length := q.total_word_length + wl,
                       speed := (((q.total_word_length + wl : Nat) : ℚ)
                         / (now - g.session.started_at.getD 0)),
                       correct_words := q.correct_words + 1,
                       time_left :=
                         (if ¬ g.options.team_mode ∧ g.options.time_per_word ≠ 0 then
                           q.time_left.map (fun tl =>
                             min g.options.game_duration
                               (tl + g.options.time_per_word * wl))
                         else q.time_left) }
            else { q with next_words := rest, incorrect_words := q.incorrect_words + 1 }
          let pc1 := { g.pc with players := updatePlayer g.pc.players p.pk f }
          let pc2 :=
            if correct ∧ g.options.team_mode ∧ g.options.time_per_word ≠ 0 then
              bumpTeamTime g.options pc1 lp.team_name (g.options.time_per_word * wl)
            else pc1
          let g1 := { g with pc := pc2 }
          match g1.wp.get_new_word pages with
          | none => .error .stopIteration
          | some (nw, wp') =>
            let g2 := { g1 with wp := wp' }
            .ok ([⟨.all, "new_word", .word nw⟩, players_update_event g2], g2)

/-- The playing-branch decay of `_handle_tick` over rational state, with
the decayed elapsed-time map `psecQ` (the rational shadow of
`fun t => t ** (1 + speed_up_percent/100)`; see `handle_tick_playing` for
the real-valued branch itself). -/
def GCState.tick_decay (psecQ : ℚ → ℚ) (g : GCState) (now : ℚ) : GCState :=
  let started := g.session.started_at.getD 0
  let prev := g.last_tick.getD started
  let delta := psecQ (now - started) - psecQ (prev - started)
  let survival := decide (g.options.win_condition = WIN_CONDITION_SURVIVED)
  let pc' :=
    if g.options.team_mode then
      let tickTeam : TeamRec → TeamRec × Bool := fun t =>
        let t1 := { t with time_left := t.time_left.map (fun tl => tl - delta) }
        let clamp := survival &&
          (match t1.time_left with | some tl => decide (tl ≤ 0) | none => false)
        (if clamp then { t1 with time_left := some 0 } else t1, clamp)
      let red := tickTeam g.pc.team_red
      let blue := tickTeam g.pc.team_blue
      let pc1 := { g.pc with team_red := red.1, team_blue := blue.1 }
      { pc1 with players := pc1.players.map (fun q =>
          if (red.2 ∧ red.1.member_ids.contains q.1) ∨
             (blue.2 ∧ blue.1.member_ids.contains q.1) then
            (q.1, { q.2 with is_out := true })
          else q) }
    else
      { g.pc with players := g.pc.players.map (fun q =>
          let tl := q.2.time_left.map (fun v => v - delta)
          let clamp := survival &&
            (match tl with | some v => decide (v ≤ 0) | none => false)
          if clamp then (q.1, { q.2 with time_left := some 0, is_out := true })
          else (q.1, { q.2 with time_left := tl })) }
  { g with pc := pc', last_tick := some now }

/-- `GameController._handle_tick` with its wrapper.  A `DiscardedEvent`
(non-host sender; preparing before the staged start; voting) yields the
bare empty list; any other state reaches the wrapper, which appends the
`PLAYERS_UPDATE` and the stage-transition events. -/
def GCState.handle_tick (psecQ : ℚ → ℚ) (g : GCState) (p : PlayerRec) (now : ℚ)
    (new_sid : String) : List SEvent × GCState :=
  if g.host_id ≠ some p.pk then ([], g)
  else
    match g.state with
    | some "preparing" =>
      match g.game_begins_at with
      | none => ([], g)
      | some gb =>
        if now < gb then ([], g)
        else
          let r := g.start_game now
          let stage := r.2.update_game_stage now new_sid
          ([r.1, players_update_event r.2] ++ stage.1, stage.2)
    | some "voting" => ([], g)
    | some "playing" =>
      let g1 := if g.options.game_duration ≠ 0 then g.tick_decay psecQ now else g
      let stage := g1.update_game_stage now new_sid
      ([players_update_event g1] ++ stage.1, stage.2)
    | _ =>
      let stage := g.update_game_stage now new_sid
      ([players_update_event g] ++ stage.1, stage.2)

/-- `GameController._handle_player_vote` with its wrapper
(`requires_player`, `updates_stage`): the stage events are appended to the
body events of whichever branch ran. -/
def GCState.handle_player_vote (g : GCState) (p : PlayerRec) (payload : String)
    (now : ℚ) (new_sid : String) : Except GCErr (List SEvent × GCState) :=
  if (lookupPlayer g.pc.players p.pk).isNone then .ok ([], g)
  else if g.state = some "voting" then
    if g.modes_available.contains payload then
      match g.pc.set_player_vote p payload with
      | none => .error .invalidModeChoice
      | some pc' =>
        let stage := GCState.update_game_stage { g with pc := pc' } now new_sid
        .ok ([votes_update_event { g with pc := pc' }] ++ stage.1, stage.2)
    else
      let stage := g.update_game_stage now new_sid
      .ok ([⟨.player, "modes_available", .modes g.modes_available⟩] ++ stage.1, stage.2)
  else
    let stage := g.update_game_stage now new_sid
    .ok (([] : List SEvent) ++ stage.1, stage.2)

/-- `GameController._handle_switch_team` with its wrapper. -/
def GCState.handle_switch_team (g : GCState) (p : PlayerRec) (payload : String) :
    Except GCErr (List SEvent × GCState) :=
  if (lookupPlayer g.pc.players p.pk).isNone then .ok ([], g)
  else if g.state ≠ some "preparing" then .error .invalidOperation
  else
    match g.pc.set_player_team g.options p payload with
    | none => .error .invalidOperation
    | some pc' =>
      let g1 := { g with pc := pc' }
      .ok ([players_update_event g1], g1)

/-- One inbound controller event with its wall-clock time. -/
inductive GCEvent
  | join (p : PlayerRec) (password : Option String) (tags : List String)
  | leave (p : PlayerRec) (now : ℚ) (newSid : String)
  | ready (p : PlayerRec) (payload : Bool) (now : ℚ) (newSid : String)
  | word (p : PlayerRec) (payload : String) (now : ℚ)
  | tick (p : PlayerRec) (now : ℚ) (newSid : String)
  | vote (p : PlayerRec) (payload : String) (now : ℚ) (newSid : String)
  | switchTeam (p : PlayerRec) (payload : String)

/-- Apply one event; a raised controller error leaves the state unchanged
(every raise in the handlers happens before any mutation). -/
def GCState.stepEvent (pages : Nat → List String) (psecQ : ℚ → ℚ) (g : GCState) :
    GCEvent → GCState
  | .join p pw tags =>
    match g.handle_player_join p pw tags with
    | .ok r => r.2
    | .error _ => g
  | .leave p now sid =>
    match g.handle_player_leave p now sid with
    | .ok r => r.2
    | .error _ => g
  | .ready p b now sid =>
    match g.handle_player_ready p b now sid with
    | .ok r => r.2
    | .error _ => g
  | .word p w now =>
    match g.handle_word p w pages now with
    | .ok r => r.2
    | .error _ => g
  | .tick p now sid => (g.handle_tick psecQ p now sid).2
  | .vote p v now sid =>
    match g.handle_player_vote p v now sid with
    | .ok r => r.2
    | .error _ => g
  | .switchTeam p t =>
    match g.handle_switch_team p t with
    | .ok r => r.2
    | .error _ => g

def GCState.runEvents (pages : Nat → List String) (psecQ : ℚ → ℚ) (g : GCState) :
    List GCEvent → GCState
  | [] => g
  | e :: es => (g.stepEvent pages psecQ e).runEvents pages psecQ es

/-! ## Join refusal (claim C1) -/

/-- `_can_player_join` returns false exactly on the four refusal
conditions, in the source's order. -/
theorem can_player_join_false_iff (g : GCState) (p : PlayerRec)
    (password : Option String) :
    g.can_player_join p password = false ↔
      ((0 < g.session.players_max ∧ g.session.players_max ≤ g.pc.player_count) ∨
       g.state ≠ some "preparing" ∨
       (lookupPlayer g.pc.players p.pk).isSome = true ∨
       (g.session.password.isSome = true ∧
         g.session.check_password password = false)) := by
  by_cases hA : 0 < g.session.players_max ∧ g.session.players_max ≤ g.pc.player_count <;>
    by_cases hB : g.state ≠ some "preparing" <;>
    by_cases hC : (lookupPlayer g.pc.players p.pk).isSome = true <;>
    by_cases hD : g.session.password.isSome = true ∧
      ¬ g.session.check_password password = true <;>
    simp [GCState.can_player_join, hA, hB, hC, hD] <;>
    tauto

/-- C1: `_handle_player_join` raises `PlayerJoinRefused` iff the cap is
positive and reached, the state is not preparing, the player is already
present, or a set password does not match; a refusal leaves the
controller state unchanged; and a successful join emits exactly the
`INITIAL_STATE` to the joining player followed by the `PLAYERS_UPDATE` to
all, on the state with the player added and the session player count
updated. -/
theorem handle_player_join_correct (pages : Nat → List String) (psecQ : ℚ → ℚ)
    (g : GCState) (p : PlayerRec) (password : Option String) (tags : List String) :
    (g.handle_player_join p password tags = .error .playerJoinRefused ↔
      ((0 < g.session.players_max ∧ g.session.players_max ≤ g.pc.player_count) ∨
       g.state ≠ some "preparing" ∨
       (lookupPlayer g.pc.players p.pk).isSome = true ∨
       (g.session.password.isSome = true ∧
         g.session.check_password password = false))) ∧
    (g.handle_player_join p password tags = .error .playerJoinRefused →
      g.stepEvent pages psecQ (.join p password tags) = g) ∧
    (∀ lp pc', g.can_player_join p password = true →
      g.pc.add_player g.options g.session.players_max p tags = some (lp, pc') →
      g.handle_player_join p password tags =
        .ok ([⟨.player, "initial_state", .initialState lp g.wp.words pc'⟩,
              ⟨.all, "players_update", .competitors pc'⟩],
          { g with pc := pc',
                   session := { g.session with players_now := pc'.player_count } })) := by
  refine ⟨?_, ?_, ?_⟩
  · cases hcan : g.can_player_join p password with
    | false =>
      have hR := (can_player_join_false_iff g p password).mp hcan
      simp [GCState.handle_player_join, hcan, hR]
    | true =>
      have hR : ¬ ((0 < g.session.players_max ∧
          g.session.players_max ≤ g.pc.player_count) ∨
          g.state ≠ some "preparing" ∨
          (lookupPlayer g.pc.players p.pk).isSome = true ∨
          (g.session.password.isSome = true ∧
            g.session.check_password password = false)) := by
        intro hR
        have := (can_player_join_false_iff g p password).mpr hR
        rw [hcan] at this
        exact absurd this (by simp)
      cases hadd : g.pc.add_player g.options g.session.players_max p tags with
      | none => simp [GCState.handle_player_join, hcan, hadd, hR]
      | some r =>
        obtain ⟨lp, pc'⟩ := r
        simp [GCState.handle_player_join, hcan, hadd, hR]
  · intro h
    simp only [GCState.stepEvent]
    rw [h]
  · intro lp pc' hcan hadd
    simp [GCState.handle_player_join, hcan, hadd, players_update_event]

/-- A concrete fresh single-mode session for evaluating the join path. -/
def jG0 : GCState :=
  { session := { mode := "s", players_max := 2 }, options := init_options "s" 2,
    state := some "preparing", pc := PCState.init ["yo"], wp := ⟨["yo"], [], 1⟩ }

def jLp : LocalPlayer :=
  { id := 1, displayed_name := "a", old_displayed_name := "a", next_words := ["yo"] }

def jPc : PCState :=
  { players := [(1, jLp)], unique_displayed_names := ["a"], words := ["yo"] }

theorem handle_player_join_correct_witness :
    jG0.can_player_join ⟨1, "a"⟩ none = true ∧
    jG0.pc.add_player jG0.options jG0.session.players_max ⟨1, "a"⟩ [] =
      some (jLp, jPc) ∧
    jG0.handle_player_join ⟨1, "a"⟩ none [] =
      .ok ([⟨.player, "initial_state", .initialState jLp jG0.wp.words jPc⟩,
            ⟨.all, "players_update", .competitors jPc⟩],
        { jG0 with pc := jPc,
                   session := { jG0.session with players_now := jPc.player_count } }) :=
  ⟨by decide, by decide,
    (handle_player_join_correct (fun _ => ["yo"]) (fun t => t) jG0 ⟨1, "a"⟩
      none []).2.2 jLp jPc (by decide) (by decide)⟩

/-! ## Leave event order (claim C5) -/

/-- Every successful removal leaves exactly the filtered player map. -/
theorem remove_player_players {opts : GameOptions} {st : PCState} {p : PlayerRec}
    {lp' : LocalPlayer} {st' : PCState}
    (hres : st.remove_player opts p = some (lp', st')) :
    st'.players = removePlayer st.players p.pk := by
  unfold PCState.remove_player at hres
  cases hlook : lookupPlayer st.players p.pk with
  | none => simp [hlook] at hres
  | some lp =>
    simp only [hlook] at hres
    split at hres
    · split at hres
      · simp only [Option.some.injEq, Prod.mk.injEq] at hres
        obtain ⟨-, rfl⟩ := hres
        rfl
      · simp only [Option.some.injEq, Prod.mk.injEq] at hres
        obtain ⟨-, rfl⟩ := hres
        rfl
      · exact absurd hres (by simp)
    · simp only [Option.some.injEq, Prod.mk.injEq] at hres
      obtain ⟨-, rfl⟩ := hres
      rfl

/-- The filtered map no longer resolves the removed key. -/
theorem lookupPlayer_removePlayer_self (ps : List (Nat × LocalPlayer)) (pk : Nat) :
    lookupPlayer (removePlayer ps pk) pk = none := by
  unfold lookupPlayer removePlayer
  rw [Option.map_eq_none', List.find?_eq_none]
  intro x hx
  have hne := (List.mem_filter.mp hx).2
  simpa using hne

/-- C5: `_handle_player_leave` is a no-op for an absent player; for a
present one the player is removed and the emitted list is the `NEW_HOST`
event (present exactly when the leaver was the host, carrying the next
host id, possibly null), then the `VOTES_UPDATE` (present exactly when the
state is voting and a player remains), then the `PLAYERS_UPDATE`, then the
stage-transition events. -/
theorem handle_player_leave_correct (g : GCState) (p : PlayerRec) (now : ℚ)
    (sid : String) :
    (lookupPlayer g.pc.players p.pk = none →
      g.handle_player_leave p now sid = .ok ([], g)) ∧
    (∀ lp pc', g.pc.remove_player g.options p = some (lp, pc') →
      lookupPlayer pc'.players p.pk = none ∧
      ∃ stageEvs g2,
        g.handle_player_leave p now sid = .ok (
          (if g.host_id = some p.pk then
            [⟨.all, "new_host", .newHost ((pc'.players.head?).map (fun r => r.2.id))⟩]
           else []) ++
          (if g.state = some "voting" ∧ 0 < pc'.player_count then
            [⟨.all, "votes_update", .votes (GameModes.labels.map (fun m =>
              (m, (pc'.players.filter (fun q => q.2.voted_for = some m)).length)))⟩]
           else []) ++
          [⟨.all, "players_update", .competitors pc'⟩] ++ stageEvs, g2)) := by
  constructor
  · intro hnone
    simp [GCState.handle_player_leave, hnone]
  · intro lp pc' hrem
    constructor
    · rw [remove_player_players hrem]
      exact lookupPlayer_removePlayer_self _ _
    · cases hcase : lookupPlayer g.pc.players p.pk with
      | none =>
        exfalso
        unfold PCState.remove_player at hrem
        simp [hcase] at hrem
      | some q =>
        by_cases hh : g.host_id = some p.pk
        · refine ⟨(GCState.update_game_stage { g with pc := pc', session := { g.session with players_now := pc'.player_count }, host_id := (pc'.players.head?).map (fun r => r.2.id) } now sid).1,
            (GCState.update_game_stage { g with pc := pc', session := { g.session with players_now := pc'.player_count }, host_id := (pc'.players.head?).map (fun r => r.2.id) } now sid).2, ?_⟩
          by_cases hv : g.state = some "voting" ∧ 0 < pc'.player_count <;>
            simp [GCState.handle_player_leave, hcase, hrem, hh, hv,
              GCState.set_new_host, players_update_event, votes_update_event]
        · refine ⟨(GCState.update_game_stage { g with pc := pc', session := { g.session with players_now := pc'.player_count } } now sid).1,
            (GCState.update_game_stage { g with pc := pc', session := { g.session with players_now := pc'.player_count } } now sid).2, ?_⟩
          by_cases hv : g.state = some "voting" ∧ 0 < pc'.player_count <;>
            simp [GCState.handle_player_leave, hcase, hrem, hh, hv,
              GCState.set_new_host, players_update_event, votes_update_event]

/-- A concrete session holding one player, who is the host, for
evaluating the leave path. -/
def lvG0 : GCState :=
  { session := { mode := "s", players_max := 2, players_now := 1 },
    options := init_options "s" 2, state := some "preparing",
    host_id := some 1, pc := jPc, wp := ⟨["yo"], [], 1⟩ }

def lvPc : PCState := { words := ["yo"] }

theorem handle_player_leave_correct_witness :
    lvG0.pc.remove_player lvG0.options ⟨1, "a"⟩ = some (jLp, lvPc) ∧
    (lookupPlayer lvPc.players (1 : Nat) = none ∧
     ∃ stageEvs g2,
       lvG0.handle_player_leave ⟨1, "a"⟩ 0 "next" = .ok (
         (if lvG0.host_id = some (1 : Nat) then
           [⟨.all, "new_host", .newHost ((lvPc.players.head?).map (fun r => r.2.id))⟩]
          else []) ++
         (if lvG0.state = some "voting" ∧ 0 < lvPc.player_count then
           [⟨.all, "votes_update", .votes (GameModes.labels.map (fun m =>
             (m, (lvPc.players.filter (fun q => q.2.voted_for = some m)).length)))⟩]
          else []) ++
         [⟨.all, "players_update", .competitors lvPc⟩] ++ stageEvs, g2)) :=
  ⟨by decide,
    (handle_player_leave_correct lvG0 ⟨1, "a"⟩ 0 "next").2 jLp lvPc (by decide)⟩

/-! ## The mistake-ratio field (claim C9) -/

/-- Every present player's `mistake_ratio` is exactly zero. -/
def ratioZero (ps : List (Nat × LocalPlayer)) : Prop :=
  ∀ q ∈ ps, q.2.mistake_ratio = 0

theorem ratioZero_map {ps : List (Nat × LocalPlayer)} (h : ratioZero ps)
    (f : Nat × LocalPlayer → Nat × LocalPlayer)
    (hf : ∀ q ∈ ps, (f q).2.mistake_ratio = q.2.mistake_ratio) :
    ratioZero (ps.map f) := by
  intro q hq
  obtain ⟨r, hr, rfl⟩ := List.mem_map.mp hq
  rw [hf r hr]
  exact h r hr

theorem ratioZero_append {ps qs : List (Nat × LocalPlayer)} (h1 : ratioZero ps)
    (h2 : ratioZero qs) : ratioZero (ps ++ qs) := by
  intro q hq
  rcases List.mem_append.mp hq with h | h
  · exact h1 q h
  · exact h2 q h

theorem ratioZero_updatePlayer {ps : List (Nat × LocalPlayer)} {pk : Nat}
    {f : LocalPlayer → LocalPlayer} (h : ratioZero ps)
    (hf : ∀ lp, (f lp).mistake_ratio = lp.mistake_ratio) :
    ratioZero (updatePlayer ps pk f) := by
  refine ratioZero_map h _ ?_
  intro q hq
  by_cases hc : (q.1 == pk) = true
  · rw [if_pos hc]
    exact hf q.2
  · rw [if_neg hc]

/-- `add_player` only appends a freshly initialised player, whose
`mistake_ratio` is the dataclass default zero. -/
theorem ratioZero_add_player {opts : GameOptions} {players_max : Nat} {st : PCState}
    {p : PlayerRec} {tags : List String} {lp : LocalPlayer} {st' : PCState}
    (hres : st.add_player opts players_max p tags = some (lp, st'))
    (h : ratioZero st.players) : ratioZero st'.players := by
  unfold PCState.add_player at hres
  cases hlook : lookupPlayer st.players p.pk with
  | some q =>
    simp only [hlook, Option.some.injEq, Prod.mk.injEq] at hres
    obtain ⟨-, rfl⟩ := hres
    exact h
  | none =>
    simp only [hlook] at hres
    split at hres
    · exact absurd hres (by simp)
    · split at hres
      · exact absurd hres (by simp)
      · split at hres
        · split at hres
          · simp only [Option.some.injEq, Prod.mk.injEq] at hres
            obtain ⟨-, rfl⟩ := hres
            refine ratioZero_append h ?_
            intro q hq
            simp only [List.mem_singleton] at hq
            subst hq
            rfl
          · simp only [Option.some.injEq, Prod.mk.injEq] at hres
            obtain ⟨-, rfl⟩ := hres
            refine ratioZero_append h ?_
            intro q hq
            simp only [List.mem_singleton] at hq
            subst hq
            rfl
        · simp only [Option.some.injEq, Prod.mk.injEq] at hres
          obtain ⟨-, rfl⟩ := hres
          refine ratioZero_append h ?_
          intro q hq
          simp only [List.mem_singleton] at hq
          subst hq
          rfl

theorem ratioZero_remove_player {opts : GameOptions} {st : PCState} {p : PlayerRec}
    {lp : LocalPlayer} {st' : PCState}
    (hres : st.remove_player opts p = some (lp, st'))
    (h : ratioZero st.players) : ratioZero st'.players := by
  rw [remove_player_players hres]
  intro q hq
  have hq' : q ∈ st.players := by
    unfold removePlayer at hq
    exact (List.mem_filter.mp hq).1
  exact h q hq'

theorem ratioZero_set_ready {st : PCState} {p : PlayerRec} {b : Bool} {st' : PCState}
    (hres : st.set_ready_state p b = some st') (h : ratioZero st.players) :
    ratioZero st'.players := by
  unfold PCState.set_ready_state at hres
  cases hlook : lookupPlayer st.players p.pk with
  | none => simp [hlook] at hres
  | some lp =>
    simp only [hlook] at hres
    split at hres
    · simp only [Option.some.injEq] at hres
      subst hres
      dsimp only
      exact ratioZero_updatePlayer h (fun q => by rfl)
    · simp only [Option.some.injEq] at hres
      subst hres
      exact h

theorem ratioZero_set_vote {st : PCState} {p : PlayerRec} {v : String} {st' : PCState}
    (hres : st.set_player_vote p v = some st') (h : ratioZero st.players) :
    ratioZero st'.players := by
  unfold PCState.set_player_vote at hres
  split at hres
  · exact absurd hres (by simp)
  · cases hlook : lookupPlayer st.players p.pk with
    | none => simp [hlook] at hres
    | some lp =>
      simp only [hlook] at hres
      by_cases hvf : lp.voted_for.isNone = true
      · simp only [hvf, if_true, Option.some.injEq] at hres
        subst hres
        show ratioZero (updatePlayer st.players p.pk (fun q => { q with voted_for := some v }))
        exact ratioZero_updatePlayer h (fun q => rfl)
      · simp only [hvf, if_false, Option.some.injEq] at hres
        subst hres
        show ratioZero (updatePlayer st.players p.pk (fun q => { q with voted_for := some v }))
        exact ratioZero_updatePlayer h (fun q => rfl)

theorem ratioZero_set_team {opts : GameOptions} {st : PCState} {p : PlayerRec}
    {t : String} {st' : PCState} (hres : st.set_player_team opts p t = some st')
    (h : ratioZero st.players) : ratioZero st'.players := by
  unfold PCState.set_player_team at hres
  split at hres
  · exact absurd hres (by simp)
  · split at hres
    · exact absurd hres (by simp)
    · cases hlook : lookupPlayer st.players p.pk with
      | none => simp [hlook] at hres
      | some lp =>
        simp only [hlook] at hres
        cases htn : lp.team_name with
        | none => simp [htn] at hres
        | some cur =>
          simp only [htn] at hres
          by_cases hcur : ¬ (cur = "red" ∨ cur = "blue")
          · rw [if_pos hcur] at hres
            exact absurd hres (by simp)
          · rw [if_neg hcur] at hres
            by_cases hmem : ((if t = "red" then st.team_red else st.team_blue).member_ids.contains p.pk) = true
            · rw [if_pos hmem] at hres
              simp only [Option.some.injEq] at hres
              subst hres
              exact h
            · rw [if_neg hmem] at hres
              simp only [Option.some.injEq] at hres
              subst hres
              dsimp only
              refine ratioZero_updatePlayer h ?_
              intro q
              rfl

theorem ratioZero_markPlayersScore (wc : String) {ps : List (Nat × LocalPlayer)}
    (h : ratioZero ps) : ratioZero (markPlayersScore wc ps) := by
  unfold markPlayersScore
  split
  · exact ratioZero_map h _ (fun q hq => rfl)
  · exact h

theorem ratioZero_markPlayersTime (wc : String) {ps : List (Nat × LocalPlayer)}
    (h : ratioZero ps) : ratioZero (markPlayersTime wc ps) := by
  unfold markPlayersTime
  split
  · exact ratioZero_map h _ (fun q hq => rfl)
  · exact h

theorem ratioZero_markPlayersSurv (wc : String) {ps : List (Nat × LocalPlayer)}
    (h : ratioZero ps) : ratioZero (markPlayersSurv wc ps) := by
  unfold markPlayersSurv
  split
  · exact ratioZero_map h _ (fun q hq => rfl)
  · exact h

theorem ratioZero_markPlayersLast {ps : List (Nat × LocalPlayer)}
    (h : ratioZero ps) : ratioZero (markPlayersLast ps) := by
  rcases ps with - | ⟨a, ps⟩
  · exact h
  · rcases ps with - | ⟨b, tl⟩
    · intro r hr
      have hra : r = (a.1, { a.2 with is_winner := some true }) := by
        simpa [markPlayersLast] using hr
      subst hra
      have ha := h a (by simp)
      simpa using ha
    · unfold markPlayersLast
      rw [if_neg (by simp)]
      exact h

theorem ratioZero_markPlayers (wc : String) {ps : List (Nat × LocalPlayer)}
    (h : ratioZero ps) : ratioZero (markPlayers wc ps) := by
  unfold markPlayers
  split
  · exact h
  · exact ratioZero_markPlayersLast (ratioZero_markPlayersSurv _
      (ratioZero_markPlayersTime _ (ratioZero_markPlayersScore _ h)))

theorem ratioZero_setTeamWinner {pc : PCState} (t : TeamRec) (b : Bool)
    (h : ratioZero pc.players) : ratioZero (setTeamWinner pc t b).players := by
  refine ratioZero_map h _ ?_
  intro q hq
  by_cases hc : t.member_ids.contains q.1 = true
  · rw [if_pos hc]
  · rw [if_neg hc]

theorem ratioZero_markTeamsScore (wc : String) {pc : PCState}
    (h : ratioZero pc.players) : ratioZero (markTeamsScore wc pc).players := by
  unfold markTeamsScore
  split
  · exact ratioZero_setTeamWinner _ _ (ratioZero_setTeamWinner _ _ h)
  · exact h

theorem ratioZero_markTeamsTime (wc : String) {pc : PCState}
    (h : ratioZero pc.players) : ratioZero (markTeamsTime wc pc).players := by
  unfold markTeamsTime
  split
  · exact ratioZero_setTeamWinner _ _ (ratioZero_setTeamWinner _ _ h)
  · exact h

theorem ratioZero_markTeamsSurv (wc : String) {pc : PCState}
    (h : ratioZero pc.players) : ratioZero (markTeamsSurv wc pc).players := by
  unfold markTeamsSurv
  split
  · exact ratioZero_setTeamWinner _ _ (ratioZero_setTeamWinner _ _ h)
  · exact h

theorem ratioZero_markTeams (wc : String) {pc : PCState}
    (h : ratioZero pc.players) : ratioZero (markTeams wc pc).players :=
  ratioZero_markTeamsSurv _ (ratioZero_markTeamsTime _ (ratioZero_markTeamsScore _ h))

theorem ratioZero_mark_winners_gc {g : GCState} (h : ratioZero g.pc.players) :
    ratioZero g.mark_winners_gc.pc.players := by
  unfold GCState.mark_winners_gc
  split
  · exact ratioZero_markTeams _ h
  · exact ratioZero_markPlayers _ h

theorem ratioZero_post_start {g : GCState} (h : ratioZero g.pc.players) :
    ratioZero g.post_start.pc.players := by
  unfold GCState.post_start
  split
  · dsimp only
    split
    · exact h
    · exact ratioZero_map h _ (fun q hq => rfl)
  · exact h

theorem ratioZero_start_game {g : GCState} {now : ℚ} (h : ratioZero g.pc.players) :
    ratioZero ((g.start_game now).2.pc.players) := by
  unfold GCState.start_game
  dsimp only
  exact ratioZero_post_start h

theorem ratioZero_game_over {g : GCState} {now : ℚ} (h : ratioZero g.pc.players) :
    ratioZero ((g.game_over now).2.pc.players) := by
  unfold GCState.game_over
  dsimp only
  exact ratioZero_mark_winners_gc h

theorem ratioZero_enter_playing {g : GCState} {now : ℚ}
    (h : ratioZero g.pc.players) :
    ratioZero ((g.enter_playing_stage now).2.pc.players) := by
  unfold GCState.enter_playing_stage
  dsimp only
  split
  · exact ratioZero_start_game h
  · exact h

theorem ratioZero_update_stage {g : GCState} {now : ℚ} {sid : String}
    (h : ratioZero g.pc.players) :
    ratioZero ((g.update_game_stage now sid).2.pc.players) := by
  unfold GCState.update_game_stage
  split
  · exact ratioZero_enter_playing h
  · split
    · dsimp only
      exact ratioZero_game_over h
    · split
      · dsimp only
        exact h
      · exact h

theorem ratio_ite (c : Prop) [inst : Decidable c] (a b : Nat × LocalPlayer) (r : ℚ)
    (ha : a.2.mistake_ratio = r) (hb : b.2.mistake_ratio = r) :
    (if c then a else b).2.mistake_ratio = r := by
  split
  · exact ha
  · exact hb

theorem ratioZero_tick_decay (psecQ : ℚ → ℚ) {g : GCState} (now : ℚ)
    (h : ratioZero g.pc.players) :
    ratioZero ((g.tick_decay psecQ now).pc.players) := by
  unfold GCState.tick_decay
  dsimp only
  split
  · refine ratioZero_map h _ ?_
    intro q hq
    dsimp only
    exact ratio_ite _ _ _ _ rfl rfl
  · refine ratioZero_map h _ ?_
    intro q hq
    dsimp only
    exact ratio_ite _ _ _ _ rfl rfl

theorem bumpTeamTime_players (opts : GameOptions) (pc : PCState)
    (tn : Option String) (bonus : ℚ) :
    (bumpTeamTime opts pc tn bonus).players = pc.players := by
  unfold bumpTeamTime
  split <;> rfl

theorem ratioZero_handle_join {g : GCState} {p : PlayerRec} {pw : Option String}
    {tags : List String} {r : List SEvent × GCState}
    (hres : g.handle_player_join p pw tags = .ok r)
    (h : ratioZero g.pc.players) : ratioZero r.2.pc.players := by
  unfold GCState.handle_player_join at hres
  split at hres
  · cases hadd : g.pc.add_player g.options g.session.players_max p tags with
    | none => simp [hadd] at hres
    | some q =>
      obtain ⟨lp, pc'⟩ := q
      simp only [hadd] at hres
      simp only [Except.ok.injEq] at hres
      subst hres
      exact ratioZero_add_player hadd h
  · exact absurd hres (by simp)

theorem ratioZero_handle_leave {g : GCState} {p : PlayerRec} {now : ℚ}
    {sid : String} {r : List SEvent × GCState}
    (hres : g.handle_player_leave p now sid = .ok r)
    (h : ratioZero g.pc.players) : ratioZero r.2.pc.players := by
  unfold GCState.handle_player_leave at hres
  split at hres
  · simp only [Except.ok.injEq] at hres
    subst hres
    exact h
  · cases hrm : g.pc.remove_player g.options p with
    | none => simp [hrm] at hres
    | some q =>
      obtain ⟨lp, pc'⟩ := q
      simp only [hrm] at hres
      by_cases hh : g.host_id = some p.pk
      · simp only [if_pos hh] at hres
        simp only [Except.ok.injEq] at hres
        subst hres
        exact ratioZero_update_stage (ratioZero_remove_player hrm h)
      · simp only [if_neg hh] at hres
        simp only [Except.ok.injEq] at hres
        subst hres
        exact ratioZero_update_stage (ratioZero_remove_player hrm h)

theorem ratioZero_handle_ready {g : GCState} {p : PlayerRec} {b : Bool} {now : ℚ}
    {sid : String} {r : List SEvent × GCState}
    (hres : g.handle_player_ready p b now sid = .ok r)
    (h : ratioZero g.pc.players) : ratioZero r.2.pc.players := by
  unfold GCState.handle_player_ready at hres
  split at hres
  · simp only [Except.ok.injEq] at hres
    subst hres
    exact h
  · split at hres
    · exact absurd hres (by simp)
    · cases hsr : g.pc.set_ready_state p b with
      | none => simp [hsr] at hres
      | some pc' =>
        simp only [hsr] at hres
        simp only [Except.ok.injEq] at hres
        subst hres
        exact ratioZero_update_stage (ratioZero_set_ready hsr h)

theorem ratioZero_handle_word (pages : Nat → List String) {g : GCState}
    {p : PlayerRec} {w : String} {now : ℚ} {r : List SEvent × GCState}
    (hres : g.handle_word p w pages now = .ok r)
    (h : ratioZero g.pc.players) : ratioZero r.2.pc.players := by
  unfold GCState.handle_word at hres
  split at hres
  · simp only [Except.ok.injEq] at hres
    subst hres
    exact h
  · split at hres
    · exact absurd hres (by simp)
    · cases hlook : lookupPlayer g.pc.players p.pk with
      | none => simp [hlook] at hres
      | some lp =>
        simp only [hlook] at hres
        split at hres
        · exact absurd hres (by simp)
        · cases hnw : lp.next_words with
          | nil => simp [hnw] at hres
          | cons w0 rest =>
            simp only [hnw] at hres
            split at hres
            · exact absurd hres (by simp)
            · rename_i nwr hgw
              obtain ⟨nw, wp'⟩ := nwr
              simp only [Except.ok.injEq] at hres
              subst hres
              dsimp only
              split
              · rw [bumpTeamTime_players]
                dsimp only
                refine ratioZero_updatePlayer h ?_
                intro q
                dsimp only
                split
                · rfl
                · rfl
              · dsimp only
                refine ratioZero_updatePlayer h ?_
                intro q
                dsimp only
                split
                · rfl
                · rfl

theorem ratioZero_handle_vote {g : GCState} {p : PlayerRec} {v : String} {now : ℚ}
    {sid : String} {r : List SEvent × GCState}
    (hres : g.handle_player_vote p v now sid = .ok r)
    (h : ratioZero g.pc.players) : ratioZero r.2.pc.players := by
  unfold GCState.handle_player_vote at hres
  split at hres
  · simp only [Except.ok.injEq] at hres
    subst hres
    exact h
  · split at hres
    · split at hres
      · cases hsv : g.pc.set_player_vote p v with
        | none => simp [hsv] at hres
        | some pc' =>
          simp only [hsv] at hres
          simp only [Except.ok.injEq] at hres
          subst hres
          exact ratioZero_update_stage (ratioZero_set_vote hsv h)
      · simp only [Except.ok.injEq] at hres
        subst hres
        exact ratioZero_update_stage h
    · simp only [Except.ok.injEq] at hres
      subst hres
      exact ratioZero_update_stage h

theorem ratioZero_handle_switch {g : GCState} {p : PlayerRec} {t : String}
    {r : List SEvent × GCState}
    (hres : g.handle_switch_team p t = .ok r)
    (h : ratioZero g.pc.players) : ratioZero r.2.pc.players := by
  unfold GCState.handle_switch_team at hres
  split at hres
  · simp only [Except.ok.injEq] at hres
    subst hres
    exact h
  · split at hres
    · exact absurd hres (by simp)
    · cases hst : g.pc.set_player_team g.options p t with
      | none => simp [hst] at hres
      | some pc' =>
        simp only [hst] at hres
        simp only [Except.ok.injEq] at hres
        subst hres
        exact ratioZero_set_team hst h

theorem ratioZero_handle_tick (psecQ : ℚ → ℚ) {g : GCState} {p : PlayerRec}
    {now : ℚ} {sid : String} (h : ratioZero g.pc.players) :
    ratioZero ((g.handle_tick psecQ p now sid).2.pc.players) := by
  unfold GCState.handle_tick
  split
  · exact h
  · split
    · split
      · exact h
      · split
        · exact h
        · dsimp only
          exact ratioZero_update_stage (ratioZero_start_game h)
    · exact h
    · dsimp only
      refine ratioZero_update_stage ?_
      split
      · exact ratioZero_tick_decay psecQ now h
      · exact h
    · dsimp only
      exact ratioZero_update_stage h

theorem ratioZero_stepEvent (pages : Nat → List String) (psecQ : ℚ → ℚ)
    {g : GCState} (e : GCEvent) (h : ratioZero g.pc.players) :
    ratioZero ((g.stepEvent pages psecQ e).pc.players) := by
  cases e with
  | join p pw tags =>
    cases hres : g.handle_player_join p pw tags with
    | error err => simp only [GCState.stepEvent, hres]; exact h
    | ok r => simp only [GCState.stepEvent, hres]; exact ratioZero_handle_join hres h
  | leave p now sid =>
    cases hres : g.handle_player_leave p now sid with
    | error err => simp only [GCState.stepEvent, hres]; exact h
    | ok r => simp only [GCState.stepEvent, hres]; exact ratioZero_handle_leave hres h
  | ready p b now sid =>
    cases hres : g.handle_player_ready p b now sid with
    | error err => simp only [GCState.stepEvent, hres]; exact h
    | ok r => simp only [GCState.stepEvent, hres]; exact ratioZero_handle_ready hres h
  | word p w now =>
    cases hres : g.handle_word p w pages now with
    | error err => simp only [GCState.stepEvent, hres]; exact h
    | ok r => simp only [GCState.stepEvent, hres]; exact ratioZero_handle_word pages hres h
  | tick p now sid =>
    simp only [GCState.stepEvent]
    exact ratioZero_handle_tick psecQ h
  | vote p v now sid =>
    cases hres : g.handle_player_vote p v now sid with
    | error err => simp only [GCState.stepEvent, hres]; exact h
    | ok r => simp only [GCState.stepEvent, hres]; exact ratioZero_handle_vote hres h
  | switchTeam p t =>
    cases hres : g.handle_switch_team p t with
    | error err => simp only [GCState.stepEvent, hres]; exact h
    | ok r => simp only [GCState.stepEvent, hres]; exact ratioZero_handle_switch hres h

theorem ratioZero_runEvents (pages : Nat → List String) (psecQ : ℚ → ℚ)
    {g : GCState} (evs : List GCEvent) (h : ratioZero g.pc.players) :
    ratioZero ((g.runEvents pages psecQ evs).pc.players) := by
  induction evs generalizing g with
  | nil => exact h
  | cons e es ih => exact ih (ratioZero_stepEvent pages psecQ e h)

/-- C9: starting from a freshly constructed controller, after any event
sequence every local player's `mistake_ratio` is exactly zero (no
operation ever writes it), and so is the `mistake_ratio` of every result
row handed to the session-result sink. -/
theorem mistake_ratio_always_zero (pages : Nat → List String) (psecQ : ℚ → ℚ)
    (sess : SessionRec) (g0 : GCState) (h0 : GCState.init pages sess = some g0)
    (evs : List GCEvent) :
    (∀ q ∈ (g0.runEvents pages psecQ evs).pc.players, q.2.mistake_ratio = 0) ∧
    (∀ row ∈ PCState.save_results_rows (g0.runEvents pages psecQ evs).options
        (g0.runEvents pages psecQ evs).pc, row.mistake_ratio = 0) := by
  have hinit : ratioZero g0.pc.players := by
    unfold GCState.init at h0
    split at h0
    · exact absurd h0 (by simp)
    · simp only [Option.some.injEq] at h0
      subst h0
      intro q hq
      simp [PCState.init] at hq
  have hall := ratioZero_runEvents pages psecQ evs hinit
  refine ⟨hall, ?_⟩
  intro row hrow
  unfold PCState.save_results_rows at hrow
  obtain ⟨q, hq, rfl⟩ := List.mem_map.mp hrow
  exact hall q hq

def mzSess : SessionRec := { mode := "s", players_max := 2 }

def mzG0 : GCState :=
  { session := mzSess, options := init_options "s" 2, state := some "preparing",
    pc := PCState.init ["yo"], wp := ⟨["yo"], [], 1⟩ }

theorem mistake_ratio_always_zero_witness :
    GCState.init (fun _ => ["yo"]) mzSess = some mzG0 ∧
    (∀ q ∈ (mzG0.runEvents (fun _ => ["yo"]) (fun t => t)
        [.join ⟨1, "a"⟩ none []]).pc.players, q.2.mistake_ratio = 0) :=
  ⟨by decide,
    (mistake_ratio_always_zero (fun _ => ["yo"]) (fun t => t) mzSess mzG0
      (by decide) [.join ⟨1, "a"⟩ none []]).1⟩

end YoTyping
